import Mathlib

/-!
Shallow embedding of `pylib/db.py` (sharded-database client library) and
verification of its specification claims.

Strings are modelled as `List Char`; Python's dynamic values (table cells,
row objects) as the inductive `Py`; fallible Python code as `Except Err _`.
-/

namespace DB

/-- Python dynamic values, as far as the library manipulates them:
integers, strings and tuples/lists. -/
inductive Py where
  | int (n : Int) : Py
  | str (s : List Char) : Py
  | tuple (xs : List Py) : Py

/-- The error outcomes (Python exceptions) reachable in the modelled code. -/
inductive Err where
  /-- `TypeError: object of type 'int' has no len()` -/
  | typeErrorNoLen
  /-- `TypeError: 'int' object is not iterable` -/
  | typeErrorNotIterable
  /-- `TypeError('Incorrect column count')` from `VirtualTable.Append` -/
  | typeErrorColumnCount
  /-- `TypeError("Field lists don't match ...")` from `VirtualTable.Merge` -/
  | typeErrorFieldsMismatch
  /-- `ValueError('Field ... already exists')` from `VirtualTable.AddField` -/
  | valueErrorDupField
  /-- `AttributeError` (e.g. `None.AddField`, `str.append`) -/
  | attributeError
  /-- `ValueError` from `int()` on a malformed literal -/
  | valueErrorInt
  /-- `ValueError('Invalid DBSpec: wrong number of parts')` -/
  | valueErrorDBSpec
  /-- `KeyError` (e.g. `popitem` on empty dict, missing format key) -/
  | keyError
  /-- `ValueError` from `%` formatting on a malformed template -/
  | valueErrorFormat
  /-- `IndexError` from `random.choice` on an empty sequence -/
  | indexError
  /-- `InconsistentResponses(text)` raised by `Execute` -/
  | inconsistentResponses (text : List Char)
  /-- `InconsistentSchema(text)` raised by `ExecuteMerged` -/
  | inconsistentSchema
  /-- `QueryErrorsException` raised by `ExecuteMerged` / `ExecuteOrDie` -/
  | queryErrorsException
  /-- `QueryWarningsException` raised by `ExecuteMerged` / `ExecuteOrDie` -/
  | queryWarningsException
  /-- `ResolutionError(msg)` raised by `DNSResolver._Lookup` -/
  | resolutionError (msg : List Char)
deriving DecidableEq, Repr

/-- Python `len(x)`: length of a string or tuple/list; `TypeError` on an int. -/
def pyLen : Py → Except Err Nat
  | .int _ => .error .typeErrorNoLen
  | .str s => .ok s.length
  | .tuple xs => .ok xs.length

/-- Python iteration (`for row in x`): a tuple yields its elements, a string
yields its characters as 1-character strings, an int is not iterable. -/
def pyIterate : Py → Except Err (List Py)
  | .int _ => .error .typeErrorNotIterable
  | .str s => .ok (s.map (fun c => .str [c]))
  | .tuple xs => .ok xs

/-- Python `str(n)` for an integer (digits, `-` sign for negatives). -/
def intStr (n : Int) : List Char := (toString n).data

/-- Python `repr` of a string, for the quote-free hostnames manipulated here:
single quotes by default, double quotes when the string contains `'` but not
`"`, backslash-escaping the chosen quote and backslashes. -/
def reprStr (s : List Char) : List Char :=
  let q : Char := if '\'' ∈ s ∧ ¬ '"' ∈ s then '"' else '\''
  q :: (s.flatMap (fun c => if c = q ∨ c = '\\' then ['\\', c] else [c])) ++ [q]

/-- `", ".join(parts)` -/
def joinCommaSep (parts : List (List Char)) : List Char :=
  List.intercalate [',', ' '] parts

mutual

/-- Python `repr(x)` for the modelled values. -/
def pyRepr : Py → List Char
  | .int n => intStr n
  | .str s => reprStr s
  | .tuple xs =>
      '(' :: (joinCommaSep (pyReprList xs)) ++
        (if xs.length = 1 then [','] else []) ++ [')']

def pyReprList : List Py → List (List Char)
  | [] => []
  | x :: xs => pyRepr x :: pyReprList xs

end

/-- Python `str(x)`: identity on strings, `repr` otherwise. -/
def pyStr : Py → List Char
  | .str s => s
  | x => pyRepr x

/-- The three result-table classes (`VirtualTable`, `QueryErrors`,
`QueryWarnings`), distinguished by their `_contents` tag. -/
inductive TableKind where
  | rows
  | errors
  | warnings
deriving DecidableEq, Repr

/-- The `_contents` class attribute used by `__str__`. -/
def TableKind.contents : TableKind → List Char
  | .rows => "Rows".data
  | .errors => "Errors".data
  | .warnings => "Warnings".data

/-- `VirtualTable`: a list of field names plus stored row objects.
Rows are stored as the dynamic values that were appended (tuples in all
well-formed uses). -/
structure VirtualTable where
  kind : TableKind
  fields : List (List Char)
  rows : List Py

namespace VirtualTable

/-- `VirtualTable.Append(row)`: `TypeError` when `len(row) != len(fields)`
(including the `TypeError` from `len` itself on an int row); otherwise the
row is stored. -/
def Append (vt : VirtualTable) (row : Py) : Except Err VirtualTable := do
  let n ← pyLen row
  if n ≠ vt.fields.length then
    throw .typeErrorColumnCount
  else
    return { vt with rows := vt.rows ++ [row] }

/-- `VirtualTable.__init__(fields, result)`: iterate `result` and `Append`
each element. -/
def mk' (kind : TableKind) (fields : List (List Char)) (result : Py) :
    Except Err VirtualTable := do
  let rows ← pyIterate result
  rows.foldlM Append { kind := kind, fields := fields, rows := [] }

/-- The `for row in self._result: row.append(value)` loop of `AddField`:
append `value` to every stored row (`row.append` fails with
`AttributeError` on a non-list row). -/
def appendToRows (value : Py) : List Py → Except Err (List Py)
  | [] => .ok []
  | .tuple xs :: rest => do return Py.tuple (xs ++ [value]) :: (← appendToRows value rest)
  | _ :: _ => .error .attributeError

/-- `VirtualTable.AddField(name, value)`: reject duplicate names, then append
`name` to the fields and `value` to every stored row. -/
def AddField (vt : VirtualTable) (name : List Char) (value : Py) :
    Except Err VirtualTable := do
  if name ∈ vt.fields then
    throw .valueErrorDupField
  else
    let rows ← appendToRows value vt.rows
    return { vt with fields := vt.fields ++ [name], rows := rows }

/-- `VirtualTable.Merge(table)`: `TypeError` unless the field lists are
identical, otherwise extend the rows. -/
def Merge (vt other : VirtualTable) : Except Err VirtualTable :=
  if vt.fields ≠ other.fields then
    throw .typeErrorFieldsMismatch
  else
    return { vt with rows := vt.rows ++ other.rows }

/-- The cells of a stored row as iterated by `zip(fields, row)` in
`__str__`. Stored rows are tuples in every modelled execution path. -/
def rowCells : Py → List Py
  | .tuple xs => xs
  | .str s => s.map (fun c => Py.str [c])
  | .int _ => []

/-- One row of `__str__` output: newline-joined `'field: cell'` lines. -/
def rowStr (fields : List (List Char)) (row : Py) : List Char :=
  List.intercalate ['\n']
    ((fields.zip (rowCells row)).map
      (fun fc => fc.1 ++ (':' :: ' ' :: pyStr fc.2)))

/-- `VirtualTable.__str__`:
`'%s returned: %d\n*****\n%s\n' % (contents, len, '\n*****\n'.join(rows))`. -/
def str (vt : VirtualTable) : List Char :=
  vt.kind.contents ++ " returned: ".data ++ intStr vt.rows.length ++
    "\n*****\n".data ++
    List.intercalate "\n*****\n".data (vt.rows.map (rowStr vt.fields)) ++
    ['\n']

/-- The row-length invariant: every stored row has `len == len(fields)`. -/
def WF (vt : VirtualTable) : Prop :=
  ∀ r ∈ vt.rows, pyLen r = .ok vt.fields.length

end VirtualTable

/-- A per-shard value of the `MultiExecute` result dictionary: a table of one
of the three kinds, or Python `None` (a DML query that returned no data). -/
abbrev QueryResult := Option VirtualTable

/-- `str(result)` as used by `Execute` to group responses (`str(None)` is
`'None'`). -/
def resultStr : QueryResult → List Char
  | none => "None".data
  | some vt => vt.str

/-! ### Python string ordering and `list.sort()` -/

/-- Python `<=` on strings: lexicographic comparison by code point. -/
def strLe : List Char → List Char → Bool
  | [], _ => true
  | _ :: _, [] => false
  | a :: as', b :: bs' =>
      if a.toNat < b.toNat then true
      else if b.toNat < a.toNat then false
      else strLe as' bs'

/-- Insert into a `strLe`-sorted list (the building block of `list.sort()`). -/
def sortInsert (x : List Char) : List (List Char) → List (List Char)
  | [] => [x]
  | y :: ys => if strLe x y then x :: y :: ys else y :: sortInsert x ys

/-- Python `names.sort()`: sort strings lexicographically. -/
def pySort : List (List Char) → List (List Char)
  | [] => []
  | x :: xs => sortInsert x (pySort xs)

/-- Python `str(list_of_strings)`: `repr` of the elements, comma-joined in
square brackets. -/
def strOfStrList (names : List (List Char)) : List Char :=
  '[' :: joinCommaSep (names.map reprStr) ++ [']']

/-! ### `_BaseConnection.Execute` (db.py lines 436-461) -/

/-- One step of the `by_result.setdefault(str(result), []).append(name)`
loop: an insertion-ordered dictionary as an association list. -/
def setdefaultAppend (d : List (List Char × List (List Char)))
    (key name : List Char) : List (List Char × List (List Char)) :=
  if d.any (fun p => p.1 = key) then
    d.map (fun p => if p.1 = key then (p.1, p.2 ++ [name]) else p)
  else
    d ++ [(key, [name])]

/-- The `by_result` dictionary built by `Execute` from the `MultiExecute`
result map (modelled as an association list in iteration order). -/
def byResult (results : List (List Char × QueryResult)) :
    List (List Char × List (List Char)) :=
  results.foldl (fun d nr => setdefaultAppend d (resultStr nr.2) nr.1) []

/-- The divergence text built by `Execute`:
`'%s:\n%s' % (sorted_names, result_str)` concatenated over the groups. -/
def inconsistentText (groups : List (List Char × List (List Char))) :
    List Char :=
  groups.foldl
    (fun text g => text ++ strOfStrList (pySort g.2) ++ (':' :: '\n' :: g.1))
    []

/-- `_BaseConnection.Execute`: group the per-host results by stringification;
return the result of the single group, else raise `InconsistentResponses`.
`results.popitem()` returns an arbitrary dictionary item; modelled as the
last entry (`KeyError` on an empty dictionary). -/
def Execute (results : List (List Char × QueryResult)) :
    Except Err QueryResult :=
  let d := byResult results
  if d.length = 1 then
    match results.getLast? with
    | some p => .ok p.2
    | none => .error .keyError
  else
    .error (.inconsistentResponses (inconsistentText d))

/-! ### `_BaseConnection.ExecuteMerged` (db.py lines 481-521) -/

/-- Python truthiness of a result value: `None` and zero-row tables are
falsy. -/
def resultTruthy : QueryResult → Bool
  | none => false
  | some vt => !vt.rows.isEmpty

/-- Truthiness of the `merged` accumulator (`None` or a table). -/
def mergedTruthy : Option VirtualTable → Bool
  | none => false
  | some vt => !vt.rows.isEmpty

/-- One iteration of the `ExecuteMerged` loop body for `(host, result)`. -/
def mergeStep (merged : Option VirtualTable)
    (host : List Char) (result : QueryResult) :
    Except Err (Option VirtualTable) := do
  match result with
  | some vt =>
    if vt.kind = .errors then throw .queryErrorsException
    else if vt.kind = .warnings then throw .queryWarningsException
    else if !resultTruthy (some vt) && !mergedTruthy merged then
      return merged
    else
      let vt' ← vt.AddField "host".data (.str host)
      match merged with
      | some m =>
        if mergedTruthy (some m) then
          if vt'.fields ≠ m.fields then throw .inconsistentSchema
          else return some (← m.Merge vt')
        else
          let fresh : VirtualTable :=
            { kind := .rows, fields := vt'.fields, rows := [] }
          return some (← fresh.Merge vt')
      | none =>
        let fresh : VirtualTable :=
          { kind := .rows, fields := vt'.fields, rows := [] }
        return some (← fresh.Merge vt')
  | none =>
    if !resultTruthy none && !mergedTruthy merged then
      return merged
    else
      -- `None.AddField('host', host)` raises AttributeError
      throw Err.attributeError

/-- `_BaseConnection.ExecuteMerged`: fold the loop body over the
per-host results, returning the final `merged` value. -/
def ExecuteMerged (results : List (List Char × QueryResult)) :
    Except Err (Option VirtualTable) :=
  results.foldlM (fun merged nr => mergeStep merged nr.1 nr.2) none

/-! ### Python string primitives: `replace`, `split`, `int` -/

/-- Structural worker for `pyReplace`; `fuel` bounds the number of steps
(one step always consumes at least one character, so `fuel = s.length`
suffices and the fuel-exhausted case is unreachable). -/
def pyReplaceAux (old new : List Char) : Nat → List Char → List Char
  | _, [] => []
  | 0, s => s
  | fuel + 1, c :: rest =>
    if old ≠ [] ∧ old.isPrefixOf (c :: rest) then
      new ++ pyReplaceAux old new fuel ((c :: rest).drop old.length)
    else
      c :: pyReplaceAux old new fuel rest

/-- Python `s.replace(old, new)` for a non-empty `old`: replace
non-overlapping occurrences left to right. (The library only calls `replace`
with non-empty patterns; the `old = ''` behaviour is not needed.) -/
def pyReplace (old new s : List Char) : List Char :=
  pyReplaceAux old new s.length s

/-- Python `s.split(sep)` for a single-character separator: keeps empty
pieces, `''.split(sep) == ['']`. -/
def pySplit (sep : Char) : List Char → List (List Char)
  | [] => [[]]
  | c :: rest =>
    if c = sep then
      [] :: pySplit sep rest
    else
      match pySplit sep rest with
      | h :: t => (c :: h) :: t
      | [] => [[c]]

/-- The numeric value of a digit string (the value `int()` computes). -/
def digitsVal (s : List Char) : Nat :=
  s.foldl (fun acc c => 10 * acc + (c.toNat - 48)) 0

/-- Python `int(s)` restricted to the digit-only strings that reach it in the
modelled code paths (`ON SHARD` lists, `{a..b}` bounds, port part):
`ValueError` on an empty or non-digit string. -/
def pyInt (s : List Char) : Except Err Nat :=
  if s ≠ [] ∧ s.all Char.isDigit then
    .ok (digitsVal s)
  else
    .error .valueErrorInt

/-! ### `_BaseConnection.Escape` and parameter substitution (db.py 415-479) -/

/-- `_BaseConnection.Escape`: `"'%s'" % str(value).replace("'", "''")`. -/
def Escape (value : Py) : List Char :=
  '\'' :: pyReplace ['\''] ['\'', '\''] (pyStr value) ++ ['\'']

/-- Structural worker for `pyFormatMap`; `fuel` bounds the number of steps
(one step always consumes at least one character). -/
def pyFormatMapAux (env : List Char → Option (List Char)) :
    Nat → List Char → Except Err (List Char)
  | _, [] => .ok []
  | 0, s => .ok s
  | fuel + 1, c :: rest =>
    if c = '%' then
      match rest with
      | '%' :: r => do return '%' :: (← pyFormatMapAux env fuel r)
      | '(' :: r =>
        match r.dropWhile (fun c => c ≠ ')') with
        | ')' :: 's' :: r2 =>
          match env (r.takeWhile (fun c => c ≠ ')')) with
          | some v => do return v ++ (← pyFormatMapAux env fuel r2)
          | none => .error .keyError
        | _ => .error .valueErrorFormat
      | _ => .error .valueErrorFormat
    else do return c :: (← pyFormatMapAux env fuel rest)

/-- Python `%`-formatting of a query template with a mapping, restricted to
the `%(name)s` and `%%` directives a query template can use with this
library's string-valued mapping (any other conversion raises). -/
def pyFormatMap (env : List Char → Option (List Char))
    (s : List Char) : Except Err (List Char) :=
  pyFormatMapAux env s.length s

/-- The parameter-substitution step of `MultiExecute` (db.py 476-477):
`query %= dict(zip(params.keys(), map(self.Escape, params.values())))`,
skipped when `params` is empty/None. -/
def substParams (query : List Char) (params : List (List Char × Py)) :
    Except Err (List Char) :=
  if params.isEmpty then
    .ok query
  else
    pyFormatMap (fun name => (params.lookup name).map Escape) query

/-! ### `Cache` (db.py 972-986) -/

/-- The state of a `Cache` instance: `_last_lookup_time` (initialised to 0
and, in the code as written, never updated) and `_last_lookup_value`
(absent until the first lookup). -/
structure CacheState (α : Type) where
  lastLookupTime : Int
  lastValue : Option α

/-- `Cache.__init__`: `_last_lookup_time = 0`. -/
def cacheInit {α : Type} : CacheState α :=
  { lastLookupTime := 0, lastValue := none }

/-- `Cache._CACHE_TTL = 60`. -/
def CACHE_TTL : Int := 60

/-- `Cache.__call__` at wall-clock time `now`, with `lookup` the value
`self._Lookup()` would produce: re-issue the lookup when
`time.time() - self._last_lookup_time > self._CACHE_TTL`, else return the
memoized value. Returns (result, new state, whether `_Lookup` ran);
the result is `none` when `_last_lookup_value` was never set
(an `AttributeError` in Python). -/
def cacheCall {α : Type} (now : Int) (lookup : α) (st : CacheState α) :
    Option α × CacheState α × Bool :=
  if now - st.lastLookupTime > CACHE_TTL then
    (some lookup, { st with lastValue := some lookup }, true)
  else
    (st.lastValue, st, false)

/-! ### Expanders (db.py 950-1030) -/

/-- Leftmost match of `_RANGE_RE = r'{(\d+)\.\.(\d+)}'` in a name: returns
(matched text, start, end). A greedy `\d+` followed by a literal `.`/`}` can
only match the maximal digit run, so matching is deterministic. -/
def parseRangeAt : List Char → Option (List Char × Nat × Nat)
  | '\x7b' :: rest =>
    let d1 := rest.takeWhile Char.isDigit
    let r1 := rest.dropWhile Char.isDigit
    if d1.isEmpty then none
    else
      match r1 with
      | '.' :: '.' :: r2 =>
        let d2 := r2.takeWhile Char.isDigit
        let r3 := r2.dropWhile Char.isDigit
        if d2.isEmpty then none
        else
          match r3 with
          | '\x7d' :: _ =>
            match pyInt d1, pyInt d2 with
            | .ok a, .ok b =>
              some ('\x7b' :: d1 ++ '.' :: '.' :: d2 ++ ['\x7d'], a, b)
            | _, _ => none
          | _ => none
      | _ => none
  | _ => none

/-- `_RANGE_RE.search(name)`: try every start position left to right. -/
def findRange : List Char → Option (List Char × Nat × Nat)
  | [] => none
  | c :: rest =>
    match parseRangeAt (c :: rest) with
    | some m => some m
    | none => findRange rest

/-- `_RangeExpander._Lookup`: expand `{a..b}` to one entry per index of the
inclusive range, replacing the matched text by the index. -/
def rangeLookup (name : List Char) : Option (List (Nat × List Char)) :=
  (findRange name).map (fun m =>
    (List.range' m.2.1 (m.2.2 + 1 - m.2.1)).map
      (fun x => (x, pyReplace m.1 (intStr x) name)))

/-- `_ListExpander._Lookup`: `dict(enumerate(name.split(',')))`. -/
def listLookup (name : List Char) : List (Nat × List Char) :=
  (pySplit ',' name).enum

/-- `_NoOpExpander._Lookup`: `{0: name}`. -/
def noOpLookup (name : List Char) : List (Nat × List Char) :=
  [(0, name)]

/-- `_HashExpander._Lookup`, abstracted over the `NumShards` value returned
by the `SELECT NumShards FROM ConfigurationGlobals` query on shard 0:
`{x: name.replace('#', str(x)) for x in xrange(NumShards)}`. -/
def hashLookup (name : List Char) (numShards : Nat) :
    List (Nat × List Char) :=
  (List.range numShards).map (fun x => (x, pyReplace ['#'] (intStr x) name))

/-- The expander strategy chosen by `_GetExpander` (db.py 954-964). -/
inductive ExpanderKind where
  | hash
  | list
  | range
  | noOp
deriving DecidableEq, Repr

/-- `_GetExpander`: `#` beats `,` beats a `{a..b}` range beats no-op. -/
def getExpanderKind (name : List Char) : ExpanderKind :=
  if '#' ∈ name then .hash
  else if ',' ∈ name then .list
  else if (findRange name).isSome then .range
  else .noOp

/-- The shard map produced by the chosen expander (hash expansion takes the
`NumShards` config-query result as a parameter). -/
def expanderLookup (name : List Char) (numShards : Nat) :
    Option (List (Nat × List Char)) :=
  match getExpanderKind name with
  | .hash => some (hashLookup name numShards)
  | .list => some (listLookup name)
  | .range => rangeLookup name
  | .noOp => some (noOpLookup name)

/-! ### `DNSResolver._Lookup` (db.py 1036-1047) -/

def DEFAULT_PORT : Nat := 3306

/-- The outcome of `socket.gethostbyname_ex(name)[2]`: either a
`socket.gaierror` (no addresses) or the list of resolved addresses. -/
def DnsOutcome := Except Unit (List (List Char))

/-- `DNSResolver._Lookup`, abstracted over the DNS outcome and the index
chosen by `random.choice` (modelled as `k % len`; `random.choice` raises
`IndexError` on an empty list). Also returns whether a DNS lookup was
performed. -/
def dnsResolverLookup (name : List Char) (dns : DnsOutcome) (k : Nat) :
    Except Err (List Char × Nat) × Bool :=
  if name = "localhost".data then
    (.ok ("localhost".data, DEFAULT_PORT), false)
  else
    match dns with
    | .error _ =>
      (.error (.resolutionError ("Failed to resolve ".data ++ name)), true)
    | .ok addrs =>
      match addrs with
      | [] => (.error .indexError, true)
      | a :: rest => (.ok ((a :: rest).get ⟨k % (a :: rest).length,
          Nat.mod_lt _ (by simp)⟩, DEFAULT_PORT), true)

/-! ### `Spec.Parse` (db.py 99-143) -/

/-- The fields of the parsed dbspec relevant to the modelled claims
(`Parse` called without keyword overrides). `user` is `None` when both the
user part and `os.getenv('USER')` are absent. -/
structure ParsedSpec where
  dbtype : List Char
  port : Option Nat
  host : List Char
  user : Option (List Char)
  passwd : List Char
  db : List Char
deriving DecidableEq, Repr

/-- `Spec._DB_TYPES`. -/
def DB_TYPES : List (List Char) := ["mysql".data]

/-- `Spec.Parse(spec)` with no keyword overrides, abstracted over
`os.getenv('USER')`: split on `:`, strip an optional db-type part, take an
optional 5th port part, then `host:user:passwd:db`; an empty user part is
replaced by the `USER` environment variable. -/
def specParse (spec : List Char) (envUSER : Option (List Char)) :
    Except Err ParsedSpec := do
  let parts := pySplit ':' spec
  let (parts, dbtype) :=
    match parts with
    | p0 :: rest => if p0 ∈ DB_TYPES then (rest, p0) else (p0 :: rest, "mysql".data)
    | [] => ([], "mysql".data)
  let (parts, port) ←
    if h : parts.length = 5 then do
      let p ← pyInt (parts.get ⟨4, by omega⟩)
      pure (parts.take 4, some p)
    else
      pure (parts, (none : Option Nat))
  if h4 : parts.length = 4 then
    let user := parts.get ⟨1, by omega⟩
    return { dbtype := dbtype
             port := port
             host := parts.get ⟨0, by omega⟩
             user := if user = [] then envUSER else some user
             passwd := parts.get ⟨2, by omega⟩
             db := parts.get ⟨3, by omega⟩ }
  else
    throw .valueErrorDBSpec

/-! ### `MultiConnection.Submit` and `_SHARD_RE` (db.py 787-826) -/

/-- Python `\s` (ASCII whitespace as matched with `re.IGNORECASE|re.DOTALL`
on a byte string). -/
def isSpaceChar (c : Char) : Bool :=
  c = ' ' ∨ c = '\t' ∨ c = '\n' ∨ c = '\x0b' ∨ c = '\x0c' ∨ c = '\r'

/-- A character of the `(?P<shard>[\d,]+)` class. -/
def isShardChar (c : Char) : Bool := c.isDigit || c = ','

/-- Case-insensitive literal match: strip `pat` (given lowercase) from the
head of `s`, comparing lowercased characters. -/
def stripCI : List Char → List Char → Option (List Char)
  | [], s => some s
  | _ :: _, [] => none
  | p :: ps, c :: cs => if c.toLower = p then stripCI ps cs else none

/-- `_SHARD_RE.match(query)` for
`^\s*ON\s+SHARD\s+(?P<shard>[\d,]+)\s+(?P<query>.*)$` (IGNORECASE, DOTALL):
returns the `shard` and `query` groups. Each greedy `\s+`/`[\d,]+` is forced
to its maximal run because the following literal can never match inside the
run, so matching is deterministic. -/
def shardMatch (q : List Char) : Option (List Char × List Char) :=
  match stripCI "on".data (q.dropWhile isSpaceChar) with
  | none => none
  | some s2 =>
    if (s2.takeWhile isSpaceChar).isEmpty then none
    else
      match stripCI "shard".data (s2.dropWhile isSpaceChar) with
      | none => none
      | some s4 =>
        if (s4.takeWhile isSpaceChar).isEmpty then none
        else
          let s5 := s4.dropWhile isSpaceChar
          if (s5.takeWhile isShardChar).isEmpty then none
          else if ((s5.dropWhile isShardChar).takeWhile
              isSpaceChar).isEmpty then none
          else some (s5.takeWhile isShardChar,
            (s5.dropWhile isShardChar).dropWhile isSpaceChar)

/-- The `[int(shard) for shard in ...]` comprehension: parse each piece
left to right, raising at the first malformed one. -/
def parseInts : List (List Char) → Except Err (List Nat)
  | [] => .ok []
  | d :: rest => do return (← pyInt d) :: (← parseInts rest)

/-- `MultiConnection.Submit` (shard selection part): on a `_SHARD_RE` match,
parse the comma-separated shard list and dispatch the `query` group; else
dispatch the unmodified query to all shards. Returns the selected shard
indices (in connection order, i.e. ascending) and the dispatched query. -/
def Submit (numShards : Nat) (q : List Char) :
    Except Err (List Nat × List Char) := do
  match shardMatch q with
  | some (run, rest) =>
    let shards ← parseInts (pySplit ',' run)
    return ((List.range numShards).filter (fun i => i ∈ shards), rest)
  | none =>
    return (List.range numShards, q)

/-! ### `QueryConsumer` error tables (db.py 555-698) -/

/-- db.py 696-698: `QueryErrors(('Code', 'Message'), ((4, str(e))))` built in
the unknown-query-error handler. Note the second argument is the single
tuple `(4, str(e))`, not a tuple of rows. -/
def unknownQueryError (msg : List Char) : Except Err VirtualTable :=
  VirtualTable.mk' .errors ["Code".data, "Message".data]
    (.tuple [.int 4, .str msg])

/-- db.py 658-661: `QueryErrors(('Code', 'Message'), ((3, str(e)),))` built in
the unknown-connection-error handler. -/
def unknownConnectError (msg : List Char) : Except Err VirtualTable :=
  VirtualTable.mk' .errors ["Code".data, "Message".data]
    (.tuple [.tuple [.int 3, .str msg]])

/-- db.py 558-559: `_ERR_QUERY_CANCELED = QueryErrors(('Code', 'Message'),
((2, 'Query canceled'),))`. -/
def ERR_QUERY_CANCELED : Except Err VirtualTable :=
  VirtualTable.mk' .errors ["Code".data, "Message".data]
    (.tuple [.tuple [.int 2, .str "Query canceled".data]])

/-- `row.append(value)` on a well-formed (tuple) row, as a total function:
the cellwise form of `AddField`'s row update. -/
def appendCell (value : Py) : Py → Py
  | .tuple xs => .tuple (xs ++ [value])
  | r => r

/-! ### Claim-side view of query templates (for C9)

A query template is decomposed into literal runs and `%(name)s` holes; this
is the vocabulary in which the substitution claim is stated and is compared
against the operational `%`-formatting above. -/

/-- A segment of a query template: a literal run or a `%(name)s` hole. -/
inductive TmplSeg where
  | lit (s : List Char)
  | hole (name : List Char)
deriving DecidableEq

/-- The raw template text of a segment list (`%(name)s` for holes). -/
def tmplRaw : List TmplSeg → List Char
  | [] => []
  | .lit s :: rest => s ++ tmplRaw rest
  | .hole n :: rest => '%' :: '(' :: (n ++ ')' :: 's' :: tmplRaw rest)

/-- The substituted text: literals verbatim, each hole replaced by the
environment's value for its name. -/
def tmplRender (env : List Char → List Char) : List TmplSeg → List Char
  | [] => []
  | .lit s :: rest => s ++ tmplRender env rest
  | .hole n :: rest => env n ++ tmplRender env rest

/-! ## Theorems -/

/-! ### Helper lemmas on `Except` do-notation and `VirtualTable` -/

theorem except_bind_ok {ε α β : Type} (a : α) (f : α → Except ε β) :
    (Except.ok a : Except ε α) >>= f = f a := rfl

theorem except_bind_error {ε α β : Type} (e : ε) (f : α → Except ε β) :
    (Except.error e : Except ε α) >>= f = Except.error e := rfl

theorem except_pure {ε α : Type} (a : α) :
    (pure a : Except ε α) = Except.ok a := rfl

theorem except_throw {ε α : Type} (e : ε) :
    (throw e : Except ε α) = Except.error e := rfl

theorem except_pure' {ε α : Type} (a : α) :
    (Except.pure a : Except ε α) = Except.ok a := rfl

theorem Append_eq_ok {vt vt' : VirtualTable} {row : Py}
    (h : vt.Append row = .ok vt') :
    pyLen row = .ok vt.fields.length ∧
      vt' = { vt with rows := vt.rows ++ [row] } := by
  cases hl : pyLen row with
  | error e =>
    simp only [VirtualTable.Append, hl, except_bind_error] at h
    cases h
  | ok n =>
    simp only [VirtualTable.Append, hl, except_bind_ok] at h
    by_cases hn : n = vt.fields.length
    · subst hn
      simp only [ne_eq, not_true_eq_false, reduceIte, except_pure,
        Except.ok.injEq] at h
      exact ⟨rfl, h.symm⟩
    · simp only [ne_eq, hn, not_false_eq_true, reduceIte, except_throw] at h
      cases h

theorem Append_ok {vt : VirtualTable} {row : Py}
    (h : pyLen row = .ok vt.fields.length) :
    vt.Append row = .ok { vt with rows := vt.rows ++ [row] } := by
  simp only [VirtualTable.Append, h, except_bind_ok, ne_eq,
    not_true_eq_false, reduceIte, except_pure]

theorem Append_len_mismatch {vt : VirtualTable} {row : Py} {n : Nat}
    (h : pyLen row = .ok n) (hn : n ≠ vt.fields.length) :
    vt.Append row = .error .typeErrorColumnCount := by
  simp only [VirtualTable.Append, h, except_bind_ok, ne_eq, hn,
    not_false_eq_true, reduceIte, except_throw]

theorem Append_WF {vt vt' : VirtualTable} {row : Py}
    (hwf : vt.WF) (h : vt.Append row = .ok vt') : vt'.WF := by
  obtain ⟨hl, rfl⟩ := Append_eq_ok h
  intro r hr
  rcases List.mem_append.1 hr with hr | hr
  · exact hwf r hr
  · simp only [List.mem_singleton] at hr
    subst hr
    exact hl

theorem foldlM_Append_WF :
    ∀ (rows : List Py) (acc vt : VirtualTable), acc.WF →
      rows.foldlM VirtualTable.Append acc = .ok vt → vt.WF := by
  intro rows
  induction rows with
  | nil =>
    intro acc vt hwf h
    simp only [List.foldlM_nil] at h
    cases h
    exact hwf
  | cons r rest ih =>
    intro acc vt hwf h
    simp only [List.foldlM_cons] at h
    cases hstep : acc.Append r with
    | error e =>
      simp only [hstep, except_bind_error] at h
      cases h
    | ok acc' =>
      simp only [hstep, except_bind_ok] at h
      exact ih acc' vt (Append_WF hwf hstep) h

theorem mk'_WF {kind : TableKind} {fields : List (List Char)} {result : Py}
    {vt : VirtualTable} (h : VirtualTable.mk' kind fields result = .ok vt) :
    vt.WF := by
  cases hi : pyIterate result with
  | error e =>
    simp only [VirtualTable.mk', hi, except_bind_error] at h
    cases h
  | ok rows =>
    simp only [VirtualTable.mk', hi, except_bind_ok] at h
    exact foldlM_Append_WF rows _ vt (fun r hr => by simp at hr) h

theorem appendToRows_ok {value : Py} :
    ∀ {rows rows' : List Py},
      VirtualTable.appendToRows value rows = .ok rows' →
      List.Forall₂
        (fun r r' => ∃ xs, r = Py.tuple xs ∧ r' = Py.tuple (xs ++ [value]))
        rows rows' := by
  intro rows
  induction rows with
  | nil =>
    intro rows' h
    simp only [VirtualTable.appendToRows] at h
    cases h
    exact List.Forall₂.nil
  | cons r rest ih =>
    intro rows' h
    match r with
    | .int _ => simp [VirtualTable.appendToRows] at h
    | .str _ => simp [VirtualTable.appendToRows] at h
    | .tuple xs =>
      cases hrest : VirtualTable.appendToRows value rest with
      | error e =>
        simp only [VirtualTable.appendToRows, hrest, except_bind_error] at h
        cases h
      | ok rest' =>
        simp only [VirtualTable.appendToRows, hrest, except_bind_ok,
          except_pure, except_pure', Except.ok.injEq] at h
        subst h
        exact List.Forall₂.cons ⟨xs, rfl, rfl⟩ (ih hrest)

theorem AddField_ok {vt vt' : VirtualTable} {name : List Char} {value : Py}
    (h : vt.AddField name value = .ok vt') :
    name ∉ vt.fields ∧ vt'.kind = vt.kind ∧
      vt'.fields = vt.fields ++ [name] ∧
      List.Forall₂
        (fun r r' => ∃ xs, r = Py.tuple xs ∧ r' = Py.tuple (xs ++ [value]))
        vt.rows vt'.rows := by
  by_cases hmem : name ∈ vt.fields
  · simp only [VirtualTable.AddField, hmem, ite_true, reduceIte,
      except_throw] at h
    cases h
  · simp only [VirtualTable.AddField, hmem, ite_false, reduceIte] at h
    cases hrows : VirtualTable.appendToRows value vt.rows with
    | error e =>
      simp only [hrows, except_bind_error] at h
      cases h
    | ok rows' =>
      simp only [hrows, except_bind_ok, except_pure, except_pure',
        Except.ok.injEq] at h
      subst h
      exact ⟨hmem, rfl, rfl, appendToRows_ok hrows⟩

theorem forall₂_mem_right {α β : Type} {R : α → β → Prop} :
    ∀ {as : List α} {bs : List β}, List.Forall₂ R as bs →
      ∀ b ∈ bs, ∃ a ∈ as, R a b := by
  intro as bs h
  induction h with
  | nil =>
    intro b hb
    simp at hb
  | cons hpair _ ih =>
    intro b hb
    rcases List.mem_cons.1 hb with rfl | hb
    · exact ⟨_, List.mem_cons_self _ _, hpair⟩
    · obtain ⟨a, ha, hr⟩ := ih b hb
      exact ⟨a, List.mem_cons_of_mem _ ha, hr⟩

theorem AddField_WF {vt vt' : VirtualTable} {name : List Char} {value : Py}
    (hwf : vt.WF) (h : vt.AddField name value = .ok vt') : vt'.WF := by
  obtain ⟨-, -, hfields, hrows⟩ := AddField_ok h
  intro r' hr'
  obtain ⟨r, hr, xs, hx, hx'⟩ := forall₂_mem_right hrows r' hr'
  subst hx hx'
  have hlen := hwf _ hr
  simp only [pyLen, Except.ok.injEq] at hlen ⊢
  simp [hfields, ← hlen]

theorem Merge_ok_iff {a b c : VirtualTable} :
    a.Merge b = .ok c ↔
      a.fields = b.fields ∧ c = { a with rows := a.rows ++ b.rows } := by
  by_cases hf : a.fields = b.fields
  · simp only [VirtualTable.Merge, hf, ne_eq, not_true_eq_false, reduceIte,
      except_pure, except_pure', Except.ok.injEq, true_and]
    exact eq_comm
  · simp only [VirtualTable.Merge, hf, ne_eq, not_false_eq_true, reduceIte,
      except_throw]
    constructor
    · intro h
      cases h
    · intro h
      exact h.1.elim

theorem Merge_fields_mismatch {a b : VirtualTable} (h : a.fields ≠ b.fields) :
    a.Merge b = .error .typeErrorFieldsMismatch := by
  simp only [VirtualTable.Merge, h, ne_eq, not_false_eq_true, reduceIte,
    except_throw]

theorem Merge_WF {a b c : VirtualTable} (ha : a.WF) (hb : b.WF)
    (h : a.Merge b = .ok c) : c.WF := by
  obtain ⟨hf, rfl⟩ := Merge_ok_iff.1 h
  intro r hr
  rcases List.mem_append.1 hr with hr | hr
  · exact ha r hr
  · rw [show ({ a with rows := a.rows ++ b.rows } : VirtualTable).fields
        = a.fields from rfl, hf]
    exact hb r hr

/-- C7: every `VirtualTable` operation preserves the invariant that each
row's length equals the field count: `Append` (and hence construction)
rejects a row of the wrong length with a `TypeError` and preserves the
invariant, construction yields an invariant-satisfying table, `AddField`
on success appends the fill value to every existing row and preserves the
invariant, and `Merge` raises a `TypeError` unless the field lists are
identical and otherwise appends the other table's rows. -/
theorem virtualTable_operations_preserve_invariant :
    (∀ (vt vt' : VirtualTable) (row : Py), vt.WF →
      (vt.Append row = .ok vt' →
        vt'.WF ∧ vt' = { vt with rows := vt.rows ++ [row] }) ∧
      (∀ n, pyLen row = .ok n → n ≠ vt.fields.length →
        vt.Append row = .error .typeErrorColumnCount)) ∧
    (∀ kind fields result vt,
      VirtualTable.mk' kind fields result = .ok vt → vt.WF) ∧
    (∀ (vt vt' : VirtualTable) (name : List Char) (value : Py), vt.WF →
      vt.AddField name value = .ok vt' →
      vt'.fields = vt.fields ++ [name] ∧
      List.Forall₂
        (fun r r' => ∃ xs, r = Py.tuple xs ∧ r' = Py.tuple (xs ++ [value]))
        vt.rows vt'.rows ∧
      vt'.WF) ∧
    (∀ (a b : VirtualTable), a.WF → b.WF →
      (a.fields ≠ b.fields →
        a.Merge b = .error .typeErrorFieldsMismatch) ∧
      (∀ c, a.Merge b = .ok c →
        c = { a with rows := a.rows ++ b.rows } ∧ c.WF)) := by
  refine ⟨?_, ?_, ?_, ?_⟩
  · intro vt vt' row hwf
    constructor
    · intro h
      exact ⟨Append_WF hwf h, (Append_eq_ok h).2⟩
    · intro n hl hn
      exact Append_len_mismatch hl hn
  · intro kind fields result vt h
    exact mk'_WF h
  · intro vt vt' name value hwf h
    obtain ⟨-, -, hfields, hrows⟩ := AddField_ok h
    exact ⟨hfields, hrows, AddField_WF hwf h⟩
  · intro a b ha hb
    constructor
    · intro hf
      exact Merge_fields_mismatch hf
    · intro c h
      exact ⟨(Merge_ok_iff.1 h).2, Merge_WF ha hb h⟩

/-- Witness for C7: instantiate the theorem at concrete tables. -/
theorem virtualTable_operations_witness :
    (VirtualTable.mk .rows [['a']]
      [Py.tuple [.int 1], Py.tuple [.int 2]]).WF ∧
    (VirtualTable.mk .rows [['a']] [Py.tuple [.int 1]]).Append
        (Py.tuple [.int 1, .int 2]) = .error .typeErrorColumnCount := by
  have hwf : (VirtualTable.mk .rows [['a']] [Py.tuple [.int 1]]).WF := by
    intro r hr
    simp only [List.mem_singleton] at hr
    subst hr
    rfl
  have h1 := (virtualTable_operations_preserve_invariant.1
    (VirtualTable.mk .rows [['a']] [Py.tuple [.int 1]])
    (VirtualTable.mk .rows [['a']] [Py.tuple [.int 1], Py.tuple [.int 2]])
    (Py.tuple [.int 2]) hwf).1 rfl
  have h2 := (virtualTable_operations_preserve_invariant.1
    (VirtualTable.mk .rows [['a']] [Py.tuple [.int 1]])
    (VirtualTable.mk .rows [['a']] [Py.tuple [.int 1]])
    (Py.tuple [.int 1, .int 2]) hwf).2 2 rfl (by decide)
  exact ⟨h1.1, h2⟩

/-! ### Helper lemmas on `pySplit` -/

theorem pySplit_append_sep {sep : Char} :
    ∀ {a : List Char}, sep ∉ a → ∀ rest,
      pySplit sep (a ++ sep :: rest) = a :: pySplit sep rest := by
  intro a
  induction a with
  | nil =>
    intro _ rest
    simp [pySplit]
  | cons c a' ih =>
    intro hmem rest
    have hc : c ≠ sep := fun h => hmem (h ▸ List.mem_cons_self _ _)
    have ha' : sep ∉ a' := fun h => hmem (List.mem_cons_of_mem _ h)
    simp only [List.cons_append, pySplit, hc, ite_false, reduceIte,
      List.append_eq, ih ha' rest]

theorem pySplit_no_sep {sep : Char} :
    ∀ {a : List Char}, sep ∉ a → pySplit sep a = [a] := by
  intro a
  induction a with
  | nil => simp [pySplit]
  | cons c a' ih =>
    intro hmem
    have hc : c ≠ sep := fun h => hmem (h ▸ List.mem_cons_self _ _)
    have ha' : sep ∉ a' := fun h => hmem (List.mem_cons_of_mem _ h)
    simp only [pySplit, hc, ite_false, reduceIte, ih ha']

/-- C10: for a plain four-part dbspec `host:user:passwd:db` (no embedded
colons, host not a db-type keyword), `Spec.Parse` fills the user field from
the `USER` environment variable when the user part is the empty string and
keeps a non-empty user part verbatim. -/
theorem specParse_empty_user_from_env (h u p d : List Char)
    (env : Option (List Char))
    (hh : ':' ∉ h) (hu : ':' ∉ u) (hp : ':' ∉ p) (hd : ':' ∉ d)
    (hmysql : h ∉ DB_TYPES) :
    specParse (h ++ ':' :: (u ++ ':' :: (p ++ ':' :: d))) env =
      .ok { dbtype := "mysql".data, port := none, host := h,
            user := if u = [] then env else some u,
            passwd := p, db := d } := by
  have hs : pySplit ':' (h ++ ':' :: (u ++ ':' :: (p ++ ':' :: d)))
      = [h, u, p, d] := by
    rw [pySplit_append_sep hh, pySplit_append_sep hu, pySplit_append_sep hp,
      pySplit_no_sep hd]
  simp [specParse, hs, hmysql, except_bind_ok, except_pure]

/-- Witness for C10: a concrete dbspec with an empty user part takes the
environment user, and one with a user part keeps it. -/
theorem specParse_empty_user_witness :
    specParse "db::pw:x".data (some "alice".data) =
      .ok { dbtype := "mysql".data, port := none, host := "db".data,
            user := some "alice".data,
            passwd := "pw".data, db := "x".data } ∧
    specParse "db:bob:pw:x".data (some "alice".data) =
      .ok { dbtype := "mysql".data, port := none, host := "db".data,
            user := some "bob".data,
            passwd := "pw".data, db := "x".data } := by
  constructor
  · exact specParse_empty_user_from_env "db".data [] "pw".data "x".data
      (some "alice".data) (by decide) (by decide) (by decide) (by decide)
      (by decide)
  · exact specParse_empty_user_from_env "db".data "bob".data "pw".data
      "x".data (some "alice".data) (by decide) (by decide) (by decide)
      (by decide) (by decide)

/-- C8: `DNSResolver._Lookup` returns `("localhost", 3306)` for the name
`localhost` without consulting DNS; for any other name it performs the DNS
lookup and, when the lookup fails with no addresses (`socket.gaierror`),
raises `ResolutionError`, and when the lookup returns a non-empty address
list, returns one of the returned addresses with port 3306. -/
theorem dnsResolver_lookup_spec (name : List Char) (dns : DnsOutcome)
    (k : Nat) :
    DEFAULT_PORT = 3306 ∧
    dnsResolverLookup "localhost".data dns k =
      (.ok ("localhost".data, DEFAULT_PORT), false) ∧
    (name ≠ "localhost".data →
      (dnsResolverLookup name dns k).2 = true ∧
      (∀ e : Unit, dns = .error e →
        dnsResolverLookup name dns k =
          (.error (.resolutionError ("Failed to resolve ".data ++ name)),
           true)) ∧
      (∀ addrs : List (List Char), dns = .ok addrs → addrs ≠ [] →
        ∃ addr ∈ addrs,
          dnsResolverLookup name dns k = (.ok (addr, DEFAULT_PORT), true))) := by
  refine ⟨rfl, by simp [dnsResolverLookup], ?_⟩
  intro hname
  refine ⟨?_, ?_, ?_⟩
  · simp only [dnsResolverLookup, hname, ite_false, reduceIte]
    cases dns with
    | error e => rfl
    | ok addrs =>
      cases addrs with
      | nil => rfl
      | cons a rest => rfl
  · intro e he
    subst he
    simp [dnsResolverLookup, hname]
  · intro addrs he hne
    subst he
    cases addrs with
    | nil => exact absurd rfl hne
    | cons a rest =>
      refine ⟨(a :: rest).get ⟨k % (a :: rest).length,
        Nat.mod_lt _ (by simp)⟩, List.get_mem _ _ _, ?_⟩
      simp [dnsResolverLookup, hname]

/-- Witness for C8: a non-localhost name with one resolved address, and one
whose lookup fails. -/
theorem dnsResolver_lookup_witness :
    (dnsResolverLookup "db1".data (.ok ["10.0.0.1".data]) 0).2 = true ∧
    dnsResolverLookup "db1".data (.error ()) 0 =
      (.error (.resolutionError "Failed to resolve db1".data), true) := by
  constructor
  · exact ((dnsResolver_lookup_spec "db1".data (.ok ["10.0.0.1".data]) 0).2.2
      (by decide)).1
  · exact ((dnsResolver_lookup_spec "db1".data (.error ()) 0).2.2
      (by decide)).2.1 () rfl

/-- C6 (amended): the shard map of the chosen expander is dense: for the
hash expander the keys are exactly `0..NumShards-1`, for the list expander
exactly `0..len-1`, for the no-op expander `{0}`; for a range descriptor
`{a..b}` the map has one entry per index of the inclusive range — keys
exactly `a..b` (dense starting at `a`, not at 0) — with the matched
placeholder text replaced by the index in the hostname. -/
theorem expander_shard_map_keys (name : List Char) (numShards : Nat)
    (m : List Char) (a b : Nat) :
    (getExpanderKind name = .hash →
      expanderLookup name numShards = some (hashLookup name numShards) ∧
      (hashLookup name numShards).map Prod.fst = List.range numShards) ∧
    (getExpanderKind name = .list →
      expanderLookup name numShards = some (listLookup name) ∧
      (listLookup name).map Prod.fst =
        List.range (pySplit ',' name).length) ∧
    (getExpanderKind name = .noOp →
      expanderLookup name numShards = some [(0, name)]) ∧
    (getExpanderKind name = .range → findRange name = some (m, a, b) →
      expanderLookup name numShards =
        some ((List.range' a (b + 1 - a)).map
          (fun x : Nat => (x, pyReplace m (intStr (x : Int)) name)))) := by
  refine ⟨?_, ?_, ?_, ?_⟩
  · intro hk
    refine ⟨by simp [expanderLookup, hk], ?_⟩
    rw [hashLookup, List.map_map]
    show List.map id (List.range numShards) = List.range numShards
    exact List.map_id _
  · intro hk
    refine ⟨by simp [expanderLookup, hk], ?_⟩
    simp [listLookup]
  · intro hk
    simp [expanderLookup, hk, noOpLookup]
  · intro hk hf
    simp [expanderLookup, hk, rangeLookup, hf]

/-- Witness for C6 (amended): a two-host list descriptor and the range
descriptor `h{2..3}`. -/
theorem expander_shard_map_keys_witness :
    expanderLookup "a,b".data 0 = some [(0, "a".data), (1, "b".data)] ∧
    expanderLookup "h\x7b2..3\x7d".data 0 =
      some [(2, "h2".data), (3, "h3".data)] := by
  constructor
  · have h := (expander_shard_map_keys "a,b".data 0 [] 0 0).2.1 (by decide)
    rw [h.1]
    rfl
  · have h := (expander_shard_map_keys "h\x7b2..3\x7d".data 0
      "\x7b2..3\x7d".data 2 3).2.2.2 (by decide) (by decide)
    rw [h]
    rfl

/-! ### Helper lemmas for `Escape` and `%`-substitution (C9) -/

theorem pyReplaceAux_singleton (q : Char) (new : List Char) :
    ∀ (fuel : Nat) (s : List Char), s.length ≤ fuel →
      pyReplaceAux [q] new fuel s =
        s.flatMap (fun c => if c = q then new else [c]) := by
  intro fuel
  induction fuel with
  | zero =>
    intro s hs
    have hnil : s = [] := List.length_eq_zero.1 (Nat.le_zero.1 hs)
    subst hnil
    rfl
  | succ f ih =>
    intro s hs
    cases s with
    | nil => rfl
    | cons c rest =>
      have hrest : rest.length ≤ f := by
        simp only [List.length_cons] at hs
        omega
      by_cases hc : c = q
      · subst hc
        simp only [pyReplaceAux, ne_eq, List.cons_ne_nil, not_false_eq_true,
          List.isPrefixOf, List.isPrefixOf_nil_left, Bool.and_true, true_and,
          List.length_cons, List.drop_succ_cons, List.drop_zero,
          List.length_nil, List.flatMap_cons, if_pos rfl, ih rest hrest]
        simp
      · have hpre : ([q].isPrefixOf (c :: rest)) = false := by
          simp only [List.isPrefixOf, List.isPrefixOf_nil_left, Bool.and_true,
            beq_eq_false_iff_ne, ne_eq]
          exact fun h => hc h.symm
        simp only [pyReplaceAux, ne_eq, List.cons_ne_nil, not_false_eq_true,
          hpre, Bool.false_eq_true, and_false, ite_false, reduceIte,
          List.flatMap_cons, hc, ih rest hrest]
        simp [hc]

/-- `s.replace(q, new)` for a single-character pattern doubles out to a
per-character expansion. -/
theorem pyReplace_singleton (q : Char) (new s : List Char) :
    pyReplace [q] new s =
      s.flatMap (fun c => if c = q then new else [c]) :=
  pyReplaceAux_singleton q new s.length s (Nat.le_refl _)

/-- A template whose raw text is empty renders to the empty string. -/
theorem tmplRender_of_raw_nil (env : List Char → List Char) :
    ∀ segs : List TmplSeg, tmplRaw segs = [] → tmplRender env segs = [] := by
  intro segs
  induction segs with
  | nil => intro _; rfl
  | cons seg rest ih =>
    intro h
    cases seg with
    | lit s =>
      simp only [tmplRaw, List.append_eq_nil] at h
      simp only [tmplRender, h.1, List.nil_append]
      exact ih h.2
    | hole n => simp [tmplRaw] at h

theorem pyFormatMapAux_char (env : List Char → Option (List Char))
    (f : Nat) (c : Char) (t : List Char) (hc : c ≠ '%') :
    pyFormatMapAux env (f + 1) (c :: t) =
      (do return c :: (← pyFormatMapAux env f t)) := by
  simp only [pyFormatMapAux, hc, ite_false, reduceIte]

theorem pyFormatMapAux_hole (env : List Char → Option (List Char))
    (f : Nat) (r r2 v : List Char)
    (hdrop : r.dropWhile (fun c => c ≠ ')') = ')' :: 's' :: r2)
    (henv : env (r.takeWhile (fun c => c ≠ ')')) = some v) :
    pyFormatMapAux env (f + 1) ('%' :: '(' :: r) =
      (do return v ++ (← pyFormatMapAux env f r2)) := by
  simp only [pyFormatMapAux, reduceIte, hdrop, henv]

theorem pyFormatMapAux_render (env : List Char → Option (List Char)) :
    ∀ (fuel : Nat) (segs : List TmplSeg), (tmplRaw segs).length ≤ fuel →
      (∀ s, TmplSeg.lit s ∈ segs → '%' ∉ s) →
      (∀ n, TmplSeg.hole n ∈ segs → ')' ∉ n ∧ (env n).isSome) →
      pyFormatMapAux env fuel (tmplRaw segs) =
        .ok (tmplRender (fun n => (env n).getD []) segs) := by
  intro fuel
  induction fuel with
  | zero =>
    intro segs hlen _ _
    have hnil : tmplRaw segs = [] :=
      List.length_eq_zero.1 (Nat.le_zero.1 hlen)
    rw [hnil, tmplRender_of_raw_nil _ segs hnil]
    rfl
  | succ f ih =>
    intro segs
    induction segs with
    | nil =>
      intro _ _ _
      rfl
    | cons seg rest ihs =>
      intro hlen hlit hhole
      have hlitr : ∀ s, TmplSeg.lit s ∈ rest → '%' ∉ s :=
        fun s hs => hlit s (List.mem_cons_of_mem _ hs)
      have hholer : ∀ n, TmplSeg.hole n ∈ rest → ')' ∉ n ∧ (env n).isSome :=
        fun n hn => hhole n (List.mem_cons_of_mem _ hn)
      cases seg with
      | lit s =>
        cases s with
        | nil =>
          have hraw : tmplRaw (TmplSeg.lit [] :: rest) = tmplRaw rest := by
            simp [tmplRaw]
          have hrender : tmplRender (fun n => (env n).getD [])
              (TmplSeg.lit [] :: rest) =
              tmplRender (fun n => (env n).getD []) rest := by
            simp [tmplRender]
          rw [hraw] at hlen ⊢
          rw [hrender]
          exact ihs hlen hlitr hholer
        | cons c s' =>
          have hcp : c ≠ '%' := by
            intro hceq
            exact hlit (c :: s') (List.mem_cons_self _ _)
              (hceq ▸ List.mem_cons_self _ _)
          have hs' : '%' ∉ s' := fun hm =>
            hlit (c :: s') (List.mem_cons_self _ _) (List.mem_cons_of_mem _ hm)
          have hlit' : ∀ t, TmplSeg.lit t ∈ (TmplSeg.lit s' :: rest) →
              '%' ∉ t := by
            intro t ht
            rcases List.mem_cons.1 ht with heq | ht
            · cases heq
              exact hs'
            · exact hlitr t ht
          have hhole' : ∀ n, TmplSeg.hole n ∈ (TmplSeg.lit s' :: rest) →
              ')' ∉ n ∧ (env n).isSome := by
            intro n hn
            rcases List.mem_cons.1 hn with heq | hn
            · cases heq
            · exact hholer n hn
          have hlen' : (tmplRaw (TmplSeg.lit s' :: rest)).length ≤ f := by
            simp only [tmplRaw, List.length_append, List.length_cons] at hlen ⊢
            omega
          have hrec := ih (TmplSeg.lit s' :: rest) hlen' hlit' hhole'
          have heqraw : tmplRaw (TmplSeg.lit (c :: s') :: rest) =
              c :: (s' ++ tmplRaw rest) := by
            simp [tmplRaw]
          have heqraw' : tmplRaw (TmplSeg.lit s' :: rest) =
              s' ++ tmplRaw rest := rfl
          rw [heqraw, pyFormatMapAux_char env f c (s' ++ tmplRaw rest) hcp,
            ← heqraw', hrec]
          simp only [except_bind_ok, except_pure, except_pure']
          show Except.ok (c :: tmplRender (fun n => (env n).getD [])
            (TmplSeg.lit s' :: rest)) = _
          simp [tmplRender]
      | hole n =>
        obtain ⟨hn, hsome⟩ := hhole n (List.mem_cons_self _ _)
        obtain ⟨v, hv⟩ := Option.isSome_iff_exists.1 hsome
        have hq : ∀ a ∈ n, (fun c => decide (c ≠ ')')) a = true := by
          intro a ha
          simp only [ne_eq, decide_eq_true_eq]
          exact fun heq => hn (heq ▸ ha)
        have htake : (n ++ ')' :: 's' :: tmplRaw rest).takeWhile
            (fun c => c ≠ ')') = n := by
          rw [List.takeWhile_append_of_pos hq]
          simp [List.takeWhile]
        have hdrop : (n ++ ')' :: 's' :: tmplRaw rest).dropWhile
            (fun c => c ≠ ')') = ')' :: 's' :: tmplRaw rest := by
          rw [List.dropWhile_append_of_pos hq]
          simp [List.dropWhile]
        have hlen' : (tmplRaw rest).length ≤ f := by
          simp only [tmplRaw, List.length_cons, List.length_append] at hlen
          omega
        have hrec := ih rest hlen' hlitr hholer
        have henv : env ((n ++ ')' :: 's' :: tmplRaw rest).takeWhile
            (fun c => c ≠ ')')) = some v := by
          rw [htake]
          exact hv
        have heqraw : tmplRaw (TmplSeg.hole n :: rest) =
            '%' :: '(' :: (n ++ ')' :: 's' :: tmplRaw rest) := rfl
        rw [heqraw, pyFormatMapAux_hole env f _ _ v hdrop henv, hrec]
        simp only [except_bind_ok, except_pure, except_pure']
        show Except.ok (v ++ tmplRender (fun n => (env n).getD []) rest) = _
        simp [tmplRender, hv]

/-- C9: `Escape(x)` is a single quote, then the string form of `x` with
every single-quote character doubled, then a closing quote; and the
parameter substitution performed by `MultiExecute` renders a query template
by replacing each `%(name)s` hole with exactly `Escape` of that parameter
value, literals passing through verbatim. -/
theorem escape_and_substitution_spec :
    (∀ x : Py, Escape x =
      '\'' :: ((pyStr x).flatMap
        (fun c => if c = '\'' then ['\'', '\''] else [c])) ++ ['\'']) ∧
    (∀ (segs : List TmplSeg) (params : List (List Char × Py)),
      params ≠ [] →
      (∀ s, TmplSeg.lit s ∈ segs → '%' ∉ s) →
      (∀ n, TmplSeg.hole n ∈ segs → ')' ∉ n ∧ (params.lookup n).isSome) →
      substParams (tmplRaw segs) params =
        .ok (tmplRender
          (fun n => ((params.lookup n).map Escape).getD []) segs)) := by
  constructor
  · intro x
    show '\'' :: pyReplace ['\''] ['\'', '\''] (pyStr x) ++ ['\''] = _
    rw [pyReplace_singleton]
  · intro segs params hpar hlit hhole
    have hne : params.isEmpty = false := by
      cases params with
      | nil => exact absurd rfl hpar
      | cons p ps => rfl
    simp only [substParams, hne, Bool.false_eq_true, ite_false, reduceIte]
    exact pyFormatMapAux_render _ _ segs (Nat.le_refl _) hlit
      (fun n hn => ⟨(hhole n hn).1, by
        have hsome := (hhole n hn).2
        cases hl : params.lookup n with
        | none =>
          rw [hl] at hsome
          cases hsome
        | some v => rfl⟩)

/-- Witness for C9: the template `SELECT %(a)s FROM t` with parameter
`a = "x'y"` substitutes to `SELECT 'x''y' FROM t`. -/
theorem escape_and_substitution_witness :
    substParams "SELECT %(a)s FROM t".data
        [("a".data, Py.str "x'y".data)] =
      .ok "SELECT 'x''y' FROM t".data := by
  have h := escape_and_substitution_spec.2
    [TmplSeg.lit "SELECT ".data, TmplSeg.hole "a".data,
     TmplSeg.lit " FROM t".data]
    [("a".data, Py.str "x'y".data)]
    (List.cons_ne_nil _ _)
    (by
      intro s hs
      simp only [List.mem_cons, List.not_mem_nil, or_false, reduceCtorEq,
        false_or, TmplSeg.lit.injEq] at hs
      rcases hs with rfl | rfl <;> decide)
    (by
      intro n hn
      simp only [List.mem_cons, List.not_mem_nil, or_false, reduceCtorEq,
        false_or, or_false, TmplSeg.hole.injEq] at hn
      subst hn
      exact ⟨by decide, by decide⟩)
  exact h

/-! ### Helper lemmas for `Execute` grouping and sorting (C3) -/

theorem strLe_total : ∀ a b : List Char, strLe a b = true ∨ strLe b a = true := by
  intro a
  induction a with
  | nil => intro b; exact Or.inl rfl
  | cons x xs ih =>
    intro b
    cases b with
    | nil => exact Or.inr rfl
    | cons y ys =>
      by_cases h1 : x.toNat < y.toNat
      · left
        simp [strLe, h1]
      · by_cases h2 : y.toNat < x.toNat
        · right
          simp [strLe, h2]
        · rcases ih ys with h | h
          · left
            simp [strLe, h1, h2, h]
          · right
            simp [strLe, h1, h2, h]

theorem strLe_trans : ∀ a b c : List Char,
    strLe a b = true → strLe b c = true → strLe a c = true := by
  intro a
  induction a with
  | nil => intro b c _ _; rfl
  | cons x xs ih =>
    intro b c hab hbc
    cases b with
    | nil => simp [strLe] at hab
    | cons y ys =>
      cases c with
      | nil => simp [strLe] at hbc
      | cons z zs =>
        simp only [strLe] at hab hbc ⊢
        by_cases hxy : x.toNat < y.toNat
        · by_cases hyz : y.toNat < z.toNat
          · simp [show x.toNat < z.toNat by omega]
          · by_cases hzy : z.toNat < y.toNat
            · simp [hyz, hzy] at hbc
            · simp [show x.toNat < z.toNat by omega]
        · by_cases hyx : y.toNat < x.toNat
          · simp [hxy, hyx] at hab
          · by_cases hyz : y.toNat < z.toNat
            · simp [show x.toNat < z.toNat by omega]
            · by_cases hzy : z.toNat < y.toNat
              · simp [hyz, hzy] at hbc
              · have hxz : ¬ x.toNat < z.toNat := by omega
                have hzx : ¬ z.toNat < x.toNat := by omega
                simp only [hxy, hyx, ite_false, reduceIte] at hab
                simp only [hyz, hzy, ite_false, reduceIte] at hbc
                simp only [hxz, hzx, ite_false, reduceIte]
                exact ih ys zs hab hbc

instance : IsTotal (List Char) (fun a b => strLe a b = true) := ⟨strLe_total⟩

instance : IsTrans (List Char) (fun a b => strLe a b = true) :=
  ⟨fun a b c => strLe_trans a b c⟩

theorem sortInsert_eq_orderedInsert (x : List Char) :
    ∀ l, sortInsert x l =
      List.orderedInsert (fun a b => strLe a b = true) x l := by
  intro l
  induction l with
  | nil => rfl
  | cons y ys ih => simp only [sortInsert, List.orderedInsert, ih]

theorem pySort_eq_insertionSort (l : List (List Char)) :
    pySort l = List.insertionSort (fun a b => strLe a b = true) l := by
  induction l with
  | nil => rfl
  | cons x xs ih =>
    simp only [pySort, List.insertionSort, ih, sortInsert_eq_orderedInsert]

theorem pySort_sorted (l : List (List Char)) :
    (pySort l).Sorted (fun a b => strLe a b = true) := by
  rw [pySort_eq_insertionSort]
  exact List.sorted_insertionSort _ l

theorem pySort_perm (l : List (List Char)) : (pySort l).Perm l := by
  rw [pySort_eq_insertionSort]
  exact List.perm_insertionSort _ l

theorem byResult_concat (results : List (List Char × QueryResult))
    (nr : List Char × QueryResult) :
    byResult (results ++ [nr]) =
      setdefaultAppend (byResult results) (resultStr nr.2) nr.1 := by
  simp [byResult, List.foldl_append]

/-- The fold invariant of `Execute`'s grouping loop: each group key holds
exactly the hosts whose result stringifies to it, in order, and the keys
are duplicate-free. -/
theorem byResult_spec (results : List (List Char × QueryResult)) :
    ((byResult results).map Prod.fst).Nodup ∧
    (∀ g ∈ byResult results,
      g.2 = (results.filter
        (fun nr => resultStr nr.2 = g.1)).map Prod.fst) ∧
    (∀ nr ∈ results, ∃ g ∈ byResult results, g.1 = resultStr nr.2) := by
  induction results using List.reverseRecOn with
  | nil =>
    refine ⟨List.nodup_nil, ?_, ?_⟩
    · intro g hg
      simp [byResult] at hg
    · intro nr hnr
      simp at hnr
  | append_singleton results nr ih =>
    obtain ⟨hnodup, hgroups, hcover⟩ := ih
    rw [byResult_concat]
    by_cases hk : (byResult results).any
        (fun p => p.1 = resultStr nr.2)
    · have hmem : ∃ g ∈ byResult results, g.1 = resultStr nr.2 := by
        obtain ⟨g, hg, hp⟩ := List.any_eq_true.1 hk
        exact ⟨g, hg, by simpa using hp⟩
      simp only [setdefaultAppend, hk, ite_true, reduceIte]
      refine ⟨?_, ?_, ?_⟩
      · have hkeys : (((byResult results).map (fun p =>
            if p.1 = resultStr nr.2 then (p.1, p.2 ++ [nr.1]) else p)).map
            Prod.fst) = (byResult results).map Prod.fst := by
          rw [List.map_map]
          apply List.map_congr_left
          intro p _
          by_cases hp : p.1 = resultStr nr.2 <;> simp [hp]
        rw [hkeys]
        exact hnodup
      · intro g hg
        obtain ⟨p, hp, hpg⟩ := List.mem_map.1 hg
        by_cases hpk : p.1 = resultStr nr.2
        · rw [if_pos hpk] at hpg
          subst hpg
          show p.2 ++ [nr.1] = List.map Prod.fst
            (List.filter (fun x => resultStr x.2 = p.1) (results ++ [nr]))
          rw [List.filter_append, List.map_append, ← hgroups p hp]
          have hfil1 : List.filter
              (fun x => decide (resultStr x.2 = p.1)) [nr] = [nr] := by
            simp [List.filter, hpk.symm]
          rw [hfil1]
          rfl
        · rw [if_neg hpk] at hpg
          subst hpg
          show p.2 = List.map Prod.fst
            (List.filter (fun x => resultStr x.2 = p.1) (results ++ [nr]))
          rw [List.filter_append, List.map_append, ← hgroups p hp]
          have hfil1 : List.filter
              (fun x => decide (resultStr x.2 = p.1)) [nr] = [] := by
            have hne : ¬ (resultStr nr.2 = p.1) := fun h => hpk h.symm
            simp [List.filter, hne]
          rw [hfil1]
          simp
      · intro nr' hnr'
        rcases List.mem_append.1 hnr' with hmem' | hmem'
        · obtain ⟨g, hg, hgk⟩ := hcover nr' hmem'
          refine ⟨(if g.1 = resultStr nr.2 then (g.1, g.2 ++ [nr.1]) else g),
            List.mem_map.2 ⟨g, hg, rfl⟩, ?_⟩
          by_cases hgk' : g.1 = resultStr nr.2
          · rw [if_pos hgk']
            exact hgk
          · rw [if_neg hgk']
            exact hgk
        · rw [List.mem_singleton] at hmem'
          obtain ⟨g, hg, hgk⟩ := hmem
          refine ⟨(g.1, g.2 ++ [nr.1]), ?_, ?_⟩
          · refine List.mem_map.2 ⟨g, hg, ?_⟩
            rw [if_pos hgk]
          · rw [hmem']
            exact hgk
    · have hfresh : ∀ g ∈ byResult results, g.1 ≠ resultStr nr.2 := by
        intro g hg
        have hall := List.any_eq_false.1 (Bool.not_eq_true _ ▸ hk) g hg
        simpa using hall
      simp only [setdefaultAppend, hk, ite_false, reduceIte,
        Bool.false_eq_true]
      refine ⟨?_, ?_, ?_⟩
      · rw [List.map_append]
        simp only [List.map_cons, List.map_nil]
        rw [List.nodup_append]
        refine ⟨hnodup, List.nodup_singleton _, ?_⟩
        intro k hk1 hk2
        obtain ⟨g, hg, hgk⟩ := List.mem_map.1 hk1
        rw [List.mem_singleton] at hk2
        exact hfresh g hg (by rw [hgk, hk2])
      · intro g hg
        rcases List.mem_append.1 hg with hgm | hgm
        · show g.2 = List.map Prod.fst
            (List.filter (fun x => resultStr x.2 = g.1) (results ++ [nr]))
          rw [List.filter_append, List.map_append, ← hgroups g hgm]
          have hfil1 : List.filter
              (fun x => decide (resultStr x.2 = g.1)) [nr] = [] := by
            have hne : ¬ (resultStr nr.2 = g.1) :=
              fun h => hfresh g hgm h.symm
            simp [List.filter, hne]
          rw [hfil1]
          simp
        · rw [List.mem_singleton] at hgm
          subst hgm
          show [nr.1] = List.map Prod.fst
            (List.filter
              (fun x => resultStr x.2 = resultStr nr.2) (results ++ [nr]))
          rw [List.filter_append, List.map_append]
          have h1 : List.filter
              (fun x => decide (resultStr x.2 = resultStr nr.2)) results
              = [] := by
            rw [List.filter_eq_nil_iff]
            intro x hx
            obtain ⟨g, hg, hgk⟩ := hcover x hx
            simp only [decide_eq_true_eq]
            intro hstr
            exact hfresh g hg (hgk.trans hstr)
          have h2 : List.filter
              (fun x => decide (resultStr x.2 = resultStr nr.2)) [nr]
              = [nr] := by
            simp [List.filter]
          rw [h1, h2]
          rfl
      · intro nr' hnr'
        rcases List.mem_append.1 hnr' with hmem' | hmem'
        · obtain ⟨g, hg, hgk⟩ := hcover nr' hmem'
          exact ⟨g, List.mem_append_left _ hg, hgk⟩
        · rw [List.mem_singleton] at hmem'
          exact ⟨(resultStr nr.2, [nr.1]),
            List.mem_append_right _ (List.mem_singleton.2 rfl),
            by rw [hmem']⟩

/-- When every result stringifies to the same key, the grouping dictionary
has that single key, holding all hosts in order. -/
theorem byResult_uniform (k : List Char) :
    ∀ results : List (List Char × QueryResult), results ≠ [] →
      (∀ nr ∈ results, resultStr nr.2 = k) →
      byResult results = [(k, results.map Prod.fst)] := by
  intro results
  induction results using List.reverseRecOn with
  | nil => intro h _; exact absurd rfl h
  | append_singleton results nr ih =>
    intro _ hall
    have hk : resultStr nr.2 = k :=
      hall nr (List.mem_append_right _ (List.mem_singleton.2 rfl))
    cases hres : results with
    | nil =>
      subst hres
      simp [byResult, setdefaultAppend, hk]
    | cons r0 rs =>
      have hne : results ≠ [] := by
        rw [hres]
        exact List.cons_ne_nil _ _
      have hall' : ∀ nr' ∈ results, resultStr nr'.2 = k := by
        intro nr' hnr'
        exact hall nr' (List.mem_append_left _ hnr')
      rw [← hres] at *
      rw [byResult_concat, ih hne hall', hk]
      simp [setdefaultAppend]

theorem inconsistentText_go (groups : List (List Char × List (List Char))) :
    ∀ init, groups.foldl
        (fun text g => text ++ strOfStrList (pySort g.2) ++
          (':' :: '\n' :: g.1)) init =
      init ++ (groups.map (fun g => strOfStrList (pySort g.2) ++
        (':' :: '\n' :: g.1))).flatten := by
  induction groups with
  | nil => intro init; simp
  | cons g gs ih =>
    intro init
    rw [List.foldl_cons, ih]
    simp [List.append_assoc]

/-- The divergence message is the concatenation, over the groups, of the
sorted host list rendering followed by the group's result string. -/
theorem inconsistentText_eq (groups : List (List Char × List (List Char))) :
    inconsistentText groups =
      (groups.map (fun g => strOfStrList (pySort g.2) ++
        (':' :: '\n' :: g.1))).flatten := by
  have h := inconsistentText_go groups []
  simpa [inconsistentText] using h

/-- C3: `Execute` returns the single common per-shard result when all
per-shard results have identical stringifications (the dictionary then has
exactly one group and an arbitrary entry — modelled as the last — is
returned); otherwise it raises `InconsistentResponses` whose message
renders, for each group of identical results, the group's contributing
hostnames sorted lexicographically followed by the shared result string. -/
theorem execute_consistency (results : List (List Char × QueryResult)) :
    (results ≠ [] →
      (∀ p ∈ results, ∀ q ∈ results, resultStr p.2 = resultStr q.2) →
      ∃ pr, results.getLast? = some pr ∧ Execute results = .ok pr.2) ∧
    (∀ p ∈ results, ∀ q ∈ results, resultStr p.2 ≠ resultStr q.2 →
      Execute results = .error (.inconsistentResponses
        (((byResult results).map (fun g =>
          strOfStrList (pySort g.2) ++ (':' :: '\n' :: g.1))).flatten)) ∧
      (∀ g ∈ byResult results,
        g.2 = (results.filter
          (fun nr => resultStr nr.2 = g.1)).map Prod.fst ∧
        (pySort g.2).Perm g.2 ∧
        (pySort g.2).Sorted (fun a b => strLe a b = true)) ∧
      (∀ nr ∈ results, ∃ g ∈ byResult results, g.1 = resultStr nr.2)) := by
  constructor
  · intro hne hall
    cases hres : results with
    | nil => exact absurd hres hne
    | cons r0 rs =>
      subst hres
      have huni : byResult (r0 :: rs) =
          [(resultStr r0.2, (r0 :: rs).map Prod.fst)] :=
        byResult_uniform (resultStr r0.2) (r0 :: rs) (List.cons_ne_nil _ _)
          (fun nr hnr => hall nr hnr r0 (List.mem_cons_self _ _))
      have hlast : (r0 :: rs).getLast? =
          some ((r0 :: rs).getLast (List.cons_ne_nil _ _)) :=
        List.getLast?_eq_getLast _ _
      refine ⟨(r0 :: rs).getLast (List.cons_ne_nil _ _), hlast, ?_⟩
      simp only [Execute, huni, List.length_singleton, ite_true, reduceIte,
        hlast]
  · intro p hp q hq hne
    have hspec := byResult_spec results
    have hlen : (byResult results).length ≠ 1 := by
      intro hlen1
      obtain ⟨g0, hg0⟩ := List.length_eq_one.1 hlen1
      obtain ⟨gp, hgp, hkp⟩ := hspec.2.2 p hp
      obtain ⟨gq, hgq, hkq⟩ := hspec.2.2 q hq
      rw [hg0, List.mem_singleton] at hgp hgq
      subst hgp
      subst hgq
      exact hne (hkp.symm.trans hkq)
    refine ⟨?_, ?_, hspec.2.2⟩
    · simp only [Execute, hlen, ite_false, reduceIte,
        inconsistentText_eq]
    · intro g hg
      exact ⟨hspec.2.1 g hg, pySort_perm g.2, pySort_sorted g.2⟩

/-- Witness for C3: two identical `None` results return the common result;
a row table next to a `None` result raises `InconsistentResponses` with the
grouped, host-sorted message. -/
theorem execute_consistency_witness :
    Execute [("h0".data, (none : QueryResult)),
             ("h1".data, (none : QueryResult))] =
      .ok (none : QueryResult) ∧
    Execute [("h1".data,
              (some ⟨.rows, ["x".data], [.tuple [.int 1]]⟩ : QueryResult)),
             ("h0".data, (none : QueryResult))] =
      .error (.inconsistentResponses
        (((byResult [("h1".data,
            (some ⟨.rows, ["x".data], [.tuple [.int 1]]⟩ : QueryResult)),
           ("h0".data, (none : QueryResult))]).map (fun g =>
          strOfStrList (pySort g.2) ++ (':' :: '\n' :: g.1))).flatten)) := by
  constructor
  · obtain ⟨pr, h1, h2⟩ :=
      (execute_consistency [("h0".data, (none : QueryResult)),
        ("h1".data, (none : QueryResult))]).1
        (List.cons_ne_nil _ _)
        (by
          intro p hp q hq
          rcases List.mem_cons.1 hp with rfl | hp'
          · rcases List.mem_cons.1 hq with rfl | hq'
            · rfl
            · rw [List.mem_singleton] at hq'
              subst hq'
              rfl
          · rw [List.mem_singleton] at hp'
            subst hp'
            rcases List.mem_cons.1 hq with rfl | hq'
            · rfl
            · rw [List.mem_singleton] at hq'
              subst hq'
              rfl)
    have hl : [("h0".data, (none : QueryResult)),
        ("h1".data, (none : QueryResult))].getLast? =
        some ("h1".data, (none : QueryResult)) := rfl
    have hpr : pr = ("h1".data, (none : QueryResult)) :=
      (Option.some_inj.1 (hl.symm.trans h1)).symm
    rw [hpr] at h2
    exact h2
  · exact ((execute_consistency [("h1".data,
        (some ⟨.rows, ["x".data], [.tuple [.int 1]]⟩ : QueryResult)),
       ("h0".data, (none : QueryResult))]).2
      ("h1".data, (some ⟨.rows, ["x".data], [.tuple [.int 1]]⟩ : QueryResult))
      (List.mem_cons_self _ _)
      ("h0".data, (none : QueryResult))
      (List.mem_cons_of_mem _ (List.mem_singleton.2 rfl))
      (by decide)).1

/-! ### Helper lemmas for the `ON SHARD` prefix (C4) -/

theorem space_toLower (c : Char) (h : isSpaceChar c = true) :
    c.toLower = c := by
  simp only [isSpaceChar, decide_eq_true_eq] at h
  rcases h with rfl | rfl | rfl | rfl | rfl | rfl <;> decide

theorem toLower_letter_not_space (c l : Char)
    (hl : c.toLower = l) (hne : isSpaceChar l = false) :
    isSpaceChar c = false := by
  by_contra hsp
  rw [Bool.not_eq_false] at hsp
  have hc := space_toLower c hsp
  rw [hc] at hl
  subst hl
  rw [hsp] at hne
  cases hne

theorem shardChar_not_space (c : Char) (h : isShardChar c = true) :
    isSpaceChar c = false := by
  by_contra hsp
  rw [Bool.not_eq_false] at hsp
  simp only [isSpaceChar, decide_eq_true_eq] at hsp
  rcases hsp with rfl | rfl | rfl | rfl | rfl | rfl <;>
    exact absurd h (by decide)

theorem stripCI_append :
    ∀ (w pat rest : List Char), w.map Char.toLower = pat →
      stripCI pat (w ++ rest) = some rest := by
  intro w
  induction w with
  | nil =>
    intro pat rest h
    rw [← h]
    rfl
  | cons c w' ih =>
    intro pat rest h
    subst h
    simp only [List.map_cons, List.cons_append, stripCI, ite_true, reduceIte]
    exact ih _ rest rfl

theorem dropWhile_space_stop (w rest : List Char) (c : Char) (t : List Char)
    (hw : ∀ x ∈ w, isSpaceChar x = true) (hrest : rest = c :: t)
    (hc : isSpaceChar c = false) :
    (w ++ rest).dropWhile isSpaceChar = rest := by
  rw [List.dropWhile_append_of_pos hw, hrest,
    List.dropWhile_cons_of_neg (by simp [hc])]

theorem takeWhile_space_ne (w rest : List Char) (hwne : w ≠ [])
    (hw : ∀ x ∈ w, isSpaceChar x = true) :
    ((w ++ rest).takeWhile isSpaceChar).isEmpty = false := by
  rw [List.takeWhile_append_of_pos hw]
  cases w with
  | nil => exact absurd rfl hwne
  | cons a t => simp

theorem dropWhile_space_into_rest (w Q : List Char)
    (hw : ∀ x ∈ w, isSpaceChar x = true)
    (hQ : ∀ c, Q.head? = some c → isSpaceChar c = false) :
    (w ++ Q).dropWhile isSpaceChar = Q := by
  rw [List.dropWhile_append_of_pos hw]
  cases Q with
  | nil => rfl
  | cons c t => rw [List.dropWhile_cons_of_neg (by simp [hQ c rfl])]

theorem parseInts_ok (ds : List (List Char))
    (h : ∀ d ∈ ds, d ≠ [] ∧ d.all Char.isDigit = true) :
    parseInts ds = .ok (ds.map digitsVal) := by
  induction ds with
  | nil => rfl
  | cons d rest ih =>
    have hd := h d (List.mem_cons_self _ _)
    have hpy : pyInt d = .ok (digitsVal d) := by
      simp [pyInt, hd.1, hd.2]
    rw [parseInts, hpy, except_bind_ok,
      ih (fun x hx => h x (List.mem_cons_of_mem _ hx)), except_bind_ok]
    rfl

/-- A query of the shape `\s* ON \s+ SHARD \s+ [\d,]+ \s+ rest` matches
`_SHARD_RE` with the shard list and the rest as the two groups. -/
theorem shardMatch_constructed
    (w0 w1 w2 w3 onW shardW SL Q : List Char)
    (hw0 : ∀ c ∈ w0, isSpaceChar c = true)
    (hw1ne : w1 ≠ []) (hw1 : ∀ c ∈ w1, isSpaceChar c = true)
    (hw2ne : w2 ≠ []) (hw2 : ∀ c ∈ w2, isSpaceChar c = true)
    (hw3ne : w3 ≠ []) (hw3 : ∀ c ∈ w3, isSpaceChar c = true)
    (honW : onW.map Char.toLower = "on".data)
    (hshardW : shardW.map Char.toLower = "shard".data)
    (hSLne : SL ≠ []) (hSL : ∀ c ∈ SL, isShardChar c = true)
    (hQ : ∀ c, Q.head? = some c → isSpaceChar c = false) :
    shardMatch
      (w0 ++ (onW ++ (w1 ++ (shardW ++ (w2 ++ (SL ++ (w3 ++ Q))))))) =
      some (SL, Q) := by
  obtain ⟨o1, ot, rfl⟩ : ∃ a t, onW = a :: t := by
    cases onW with
    | nil => simp at honW
    | cons a t => exact ⟨a, t, rfl⟩
  obtain ⟨s1, st, rfl⟩ : ∃ a t, shardW = a :: t := by
    cases shardW with
    | nil => simp at hshardW
    | cons a t => exact ⟨a, t, rfl⟩
  obtain ⟨c1, ct, rfl⟩ : ∃ a t, SL = a :: t := by
    cases SL with
    | nil => exact absurd rfl hSLne
    | cons a t => exact ⟨a, t, rfl⟩
  have ho1 : o1.toLower = 'o' := by
    simp only [List.map_cons] at honW
    exact (List.cons_eq_cons.1 honW).1
  have hs1 : s1.toLower = 's' := by
    simp only [List.map_cons] at hshardW
    exact (List.cons_eq_cons.1 hshardW).1
  have ho1ns : isSpaceChar o1 = false :=
    toLower_letter_not_space o1 'o' ho1 (by decide)
  have hs1ns : isSpaceChar s1 = false :=
    toLower_letter_not_space s1 's' hs1 (by decide)
  have hc1 : isShardChar c1 = true := hSL c1 (List.mem_cons_self _ _)
  have hc1ns : isSpaceChar c1 = false := shardChar_not_space c1 hc1
  have hA : ((w0 ++ ((o1 :: ot) ++ (w1 ++ ((s1 :: st) ++
      (w2 ++ ((c1 :: ct) ++ (w3 ++ Q))))))).dropWhile isSpaceChar) =
      (o1 :: ot) ++ (w1 ++ ((s1 :: st) ++ (w2 ++ ((c1 :: ct) ++
        (w3 ++ Q))))) :=
    dropWhile_space_stop _ _ o1 _ hw0 rfl ho1ns
  have hB : stripCI "on".data ((o1 :: ot) ++ (w1 ++ ((s1 :: st) ++
      (w2 ++ ((c1 :: ct) ++ (w3 ++ Q)))))) =
      some (w1 ++ ((s1 :: st) ++ (w2 ++ ((c1 :: ct) ++ (w3 ++ Q))))) :=
    stripCI_append _ _ _ honW
  have hC : ((w1 ++ ((s1 :: st) ++ (w2 ++ ((c1 :: ct) ++
      (w3 ++ Q))))).takeWhile isSpaceChar).isEmpty = false :=
    takeWhile_space_ne _ _ hw1ne hw1
  have hD : ((w1 ++ ((s1 :: st) ++ (w2 ++ ((c1 :: ct) ++
      (w3 ++ Q))))).dropWhile isSpaceChar) =
      (s1 :: st) ++ (w2 ++ ((c1 :: ct) ++ (w3 ++ Q))) :=
    dropWhile_space_stop _ _ s1 _ hw1 rfl hs1ns
  have hE : stripCI "shard".data ((s1 :: st) ++ (w2 ++ ((c1 :: ct) ++
      (w3 ++ Q)))) = some (w2 ++ ((c1 :: ct) ++ (w3 ++ Q))) :=
    stripCI_append _ _ _ hshardW
  have hF : ((w2 ++ ((c1 :: ct) ++ (w3 ++ Q))).takeWhile
      isSpaceChar).isEmpty = false :=
    takeWhile_space_ne _ _ hw2ne hw2
  have hG : ((w2 ++ ((c1 :: ct) ++ (w3 ++ Q))).dropWhile isSpaceChar) =
      (c1 :: ct) ++ (w3 ++ Q) :=
    dropWhile_space_stop _ _ c1 _ hw2 rfl hc1ns
  obtain ⟨w3h, w3t, rfl⟩ : ∃ a t, w3 = a :: t := by
    cases w3 with
    | nil => exact absurd rfl hw3ne
    | cons a t => exact ⟨a, t, rfl⟩
  have hw3h : isSpaceChar w3h = true := hw3 w3h (List.mem_cons_self _ _)
  have hw3hns : isShardChar w3h = false := by
    by_contra hbad
    rw [Bool.not_eq_false] at hbad
    rw [shardChar_not_space w3h hbad] at hw3h
    cases hw3h
  have hH : (((c1 :: ct) ++ ((w3h :: w3t) ++ Q)).takeWhile isShardChar) =
      c1 :: ct := by
    show ((c1 :: ct) ++ (w3h :: (w3t ++ Q))).takeWhile isShardChar = c1 :: ct
    rw [List.takeWhile_append_of_pos hSL,
      List.takeWhile_cons_of_neg (by simp [hw3hns]), List.append_nil]
  have hHne : (c1 :: ct).isEmpty = false := rfl
  have hI : (((c1 :: ct) ++ ((w3h :: w3t) ++ Q)).dropWhile isShardChar) =
      (w3h :: w3t) ++ Q := by
    show ((c1 :: ct) ++ (w3h :: (w3t ++ Q))).dropWhile isShardChar =
      w3h :: (w3t ++ Q)
    rw [List.dropWhile_append_of_pos hSL,
      List.dropWhile_cons_of_neg (by simp [hw3hns])]
  have hJ : (((w3h :: w3t) ++ Q).takeWhile isSpaceChar).isEmpty = false :=
    takeWhile_space_ne _ _ (List.cons_ne_nil _ _) hw3
  have hK : (((w3h :: w3t) ++ Q).dropWhile isSpaceChar) = Q :=
    dropWhile_space_into_rest _ _ hw3 hQ
  simp only [shardMatch, hA, hB, hC, Bool.false_eq_true, ite_false,
    reduceIte, hD, hE, hF, hG, hH, hHne, hI, hJ, hK]

/-- C4: a query of the form `ON SHARD i1,...,ik Q` (case-insensitive,
tolerant of leading whitespace, with `Q` free to span newlines) is
dispatched with the prefix stripped — `Q` alone — to exactly the shard
indices in the list that exist; an unknown index selects no worker, and a
query that does not match the prefix is dispatched unchanged to all
shards. -/
theorem multiConnection_submit_on_shard (n : Nat)
    (w0 w1 w2 w3 onW shardW SL Q : List Char)
    (hw0 : ∀ c ∈ w0, isSpaceChar c = true)
    (hw1ne : w1 ≠ []) (hw1 : ∀ c ∈ w1, isSpaceChar c = true)
    (hw2ne : w2 ≠ []) (hw2 : ∀ c ∈ w2, isSpaceChar c = true)
    (hw3ne : w3 ≠ []) (hw3 : ∀ c ∈ w3, isSpaceChar c = true)
    (honW : onW.map Char.toLower = "on".data)
    (hshardW : shardW.map Char.toLower = "shard".data)
    (hSLne : SL ≠ []) (hSL : ∀ c ∈ SL, isShardChar c = true)
    (hpieces : ∀ d ∈ pySplit ',' SL, d ≠ [] ∧ d.all Char.isDigit = true)
    (hQ : ∀ c, Q.head? = some c → isSpaceChar c = false) :
    Submit n
        (w0 ++ (onW ++ (w1 ++ (shardW ++ (w2 ++ (SL ++ (w3 ++ Q))))))) =
      .ok ((List.range n).filter
        (fun i => i ∈ (pySplit ',' SL).map digitsVal), Q) ∧
    (∀ i : Nat,
      i ∈ (List.range n).filter
        (fun i => i ∈ (pySplit ',' SL).map digitsVal) ↔
      i < n ∧ i ∈ (pySplit ',' SL).map digitsVal) ∧
    ((∀ s ∈ (pySplit ',' SL).map digitsVal, s < n) →
      ∀ i : Nat,
        i ∈ (List.range n).filter
          (fun i => i ∈ (pySplit ',' SL).map digitsVal) ↔
        i ∈ (pySplit ',' SL).map digitsVal) ∧
    (∀ q' : List Char, shardMatch q' = none →
      Submit n q' = .ok (List.range n, q')) := by
  have hmatch := shardMatch_constructed w0 w1 w2 w3 onW shardW SL Q
    hw0 hw1ne hw1 hw2ne hw2 hw3ne hw3 honW hshardW hSLne hSL hQ
  have hmem : ∀ i : Nat,
      i ∈ (List.range n).filter
        (fun i => i ∈ (pySplit ',' SL).map digitsVal) ↔
      i < n ∧ i ∈ (pySplit ',' SL).map digitsVal := by
    intro i
    rw [List.mem_filter, List.mem_range]
    simp
  refine ⟨?_, hmem, ?_, ?_⟩
  · rw [Submit, hmatch]
    show (do
      let shards ← parseInts (pySplit ',' SL)
      pure ((List.range n).filter (fun i => i ∈ shards), Q)
      : Except Err (List Nat × List Char)) =
      .ok ((List.range n).filter
        (fun i => i ∈ (pySplit ',' SL).map digitsVal), Q)
    rw [parseInts_ok _ hpieces, except_bind_ok]
    rfl
  · intro hvalid i
    rw [hmem i]
    constructor
    · exact fun h => h.2
    · intro h
      exact ⟨hvalid i h, h⟩
  · intro q' hq'
    rw [Submit, hq']
    rfl

/-- Witness for C4: on three shards, `ON SHARD 1,5 SELECT x` dispatches
`SELECT x` to shard 1 only (5 names no worker), and a plain query goes to
all three shards. -/
theorem multiConnection_submit_witness :
    Submit 3 "ON SHARD 1,5 SELECT x".data =
      .ok ([1], "SELECT x".data) ∧
    Submit 3 "SELECT 1".data = .ok ([0, 1, 2], "SELECT 1".data) := by
  constructor
  · have h := (multiConnection_submit_on_shard 3 [] [' '] [' '] [' ']
      "ON".data "SHARD".data "1,5".data "SELECT x".data
      (by intro c hc; cases hc)
      (by decide) (by decide) (by decide) (by decide) (by decide) (by decide)
      (by decide) (by decide)
      (by decide) (by decide)
      (by decide)
      (by intro c hc; cases hc; decide)).1
    exact h
  · exact (multiConnection_submit_on_shard 3 [] [' '] [' '] [' ']
      "ON".data "SHARD".data "1,5".data "SELECT x".data
      (by intro c hc; cases hc)
      (by decide) (by decide) (by decide) (by decide) (by decide) (by decide)
      (by decide) (by decide)
      (by decide) (by decide)
      (by decide)
      (by intro c hc; cases hc; decide)).2.2.2
      "SELECT 1".data (by decide)

/-! ### Helper lemmas for `ExecuteMerged` (C2 amended) -/

theorem appendToRows_tuples (value : Py) :
    ∀ rows : List Py, (∀ r ∈ rows, ∃ xs, r = Py.tuple xs) →
      VirtualTable.appendToRows value rows =
        .ok (rows.map (appendCell value)) := by
  intro rows
  induction rows with
  | nil => intro _; rfl
  | cons r rest ih =>
    intro h
    obtain ⟨xs, rfl⟩ := h r (List.mem_cons_self _ _)
    rw [VirtualTable.appendToRows,
      ih (fun x hx => h x (List.mem_cons_of_mem _ hx)), except_bind_ok]
    rfl

theorem addField_host_ok (t : VirtualTable) (h : List Char)
    (F : List (List Char)) (hfields : t.fields = F)
    (hhost : "host".data ∉ F)
    (htuples : ∀ r ∈ t.rows, ∃ xs, r = Py.tuple xs) :
    t.AddField "host".data (.str h) =
      .ok { kind := t.kind, fields := t.fields ++ ["host".data],
            rows := t.rows.map (appendCell (Py.str h)) } := by
  have hmem : "host".data ∉ t.fields := by
    rw [hfields]
    exact hhost
  rw [VirtualTable.AddField]
  simp only [hmem, ite_false, reduceIte,
    appendToRows_tuples (Py.str h) t.rows htuples, except_bind_ok]
  rfl

theorem mergeStep_table_first (h : List Char) (t : VirtualTable)
    (F : List (List Char)) (hkind : t.kind = .rows) (hfields : t.fields = F)
    (hrows : t.rows ≠ []) (hhost : "host".data ∉ F)
    (htuples : ∀ r ∈ t.rows, ∃ xs, r = Py.tuple xs) :
    mergeStep none h (some t) =
      .ok (some { kind := TableKind.rows,
                  fields := F ++ ["host".data],
                  rows := t.rows.map (appendCell (Py.str h)) }) := by
  obtain ⟨tk, tf, tr⟩ := t
  simp only at hkind hfields hrows htuples
  subst hkind
  subst hfields
  have hre : tr.isEmpty = false := by
    cases hr : tr with
    | nil => exact absurd hr hrows
    | cons a l => rfl
  have hadd : (⟨.rows, tf, tr⟩ : VirtualTable).AddField
      ['h', 'o', 's', 't'] (Py.str h) =
      .ok ⟨.rows, tf ++ [['h', 'o', 's', 't']],
           tr.map (appendCell (Py.str h))⟩ :=
    addField_host_ok ⟨.rows, tf, tr⟩ h tf rfl hhost htuples
  rw [mergeStep]
  simp only [reduceCtorEq, ite_false, reduceIte, resultTruthy, mergedTruthy,
    hre, Bool.not_true, Bool.not_false, Bool.false_and, Bool.and_false,
    Bool.false_eq_true, hadd, except_bind_ok, VirtualTable.Merge, ne_eq,
    not_true_eq_false, except_pure, except_throw, List.nil_append]

theorem mergeStep_table_acc (h : List Char) (t acc : VirtualTable)
    (F : List (List Char)) (hkind : t.kind = .rows) (hfields : t.fields = F)
    (hrows : t.rows ≠ []) (hhost : "host".data ∉ F)
    (htuples : ∀ r ∈ t.rows, ∃ xs, r = Py.tuple xs)
    (haccf : acc.fields = F ++ ["host".data]) (haccr : acc.rows ≠ []) :
    mergeStep (some acc) h (some t) =
      .ok (some { acc with
                  rows := acc.rows ++
                    t.rows.map (appendCell (Py.str h)) }) := by
  obtain ⟨tk, tf, tr⟩ := t
  obtain ⟨ak, af, ar⟩ := acc
  simp only at hkind hfields hrows htuples haccf haccr
  subst hkind
  subst hfields
  subst haccf
  have hre : tr.isEmpty = false := by
    cases hr : tr with
    | nil => exact absurd hr hrows
    | cons a l => rfl
  have hae : ar.isEmpty = false := by
    cases hr : ar with
    | nil => exact absurd hr haccr
    | cons a l => rfl
  have hadd : (⟨.rows, tf, tr⟩ : VirtualTable).AddField
      ['h', 'o', 's', 't'] (Py.str h) =
      .ok ⟨.rows, tf ++ [['h', 'o', 's', 't']],
           tr.map (appendCell (Py.str h))⟩ :=
    addField_host_ok ⟨.rows, tf, tr⟩ h tf rfl hhost htuples
  rw [mergeStep]
  simp only [reduceCtorEq, ite_false, reduceIte, resultTruthy, mergedTruthy,
    hre, hae, Bool.not_true, Bool.not_false, Bool.false_and, Bool.and_false,
    Bool.false_eq_true, ite_true, hadd, except_bind_ok, VirtualTable.Merge,
    ne_eq, not_true_eq_false, except_pure, except_throw, List.nil_append]

theorem executeMerged_tables_fold (F : List (List Char))
    (hhost : "host".data ∉ F) :
    ∀ (tables : List (List Char × VirtualTable)) (acc : VirtualTable),
      acc.fields = F ++ ["host".data] → acc.rows ≠ [] →
      (∀ p ∈ tables, p.2.kind = .rows ∧ p.2.fields = F ∧ p.2.rows ≠ [] ∧
        ∀ r ∈ p.2.rows, ∃ xs, r = Py.tuple xs) →
      (tables.map (fun p => (p.1, (some p.2 : QueryResult)))).foldlM
          (fun merged nr => mergeStep merged nr.1 nr.2) (some acc) =
        .ok (some { acc with rows := acc.rows ++
          (tables.map
            (fun p => p.2.rows.map (appendCell (Py.str p.1)))).flatten }) := by
  intro tables
  induction tables with
  | nil =>
    intro acc haccf haccr _
    simp only [List.map_nil, List.foldlM_nil, List.flatten_nil,
      List.append_nil]
    rfl
  | cons p rest ih =>
    intro acc haccf haccr htab
    obtain ⟨hkind, hfields, hrows, htuples⟩ := htab p (List.mem_cons_self _ _)
    simp only [List.map_cons, List.foldlM_cons,
      mergeStep_table_acc p.1 p.2 acc F hkind hfields hrows hhost htuples
        haccf haccr, except_bind_ok]
    rw [ih { acc with
             rows := acc.rows ++
               p.2.rows.map (appendCell (Py.str p.1)) } haccf
      (by
        intro hbad
        rw [List.append_eq_nil] at hbad
        exact haccr hbad.1)
      (fun x hx => htab x (List.mem_cons_of_mem _ hx))]
    simp [List.append_assoc]

theorem executeMerged_skips_leading_nones (nones : List (List Char)) :
    ∀ rest : List (List Char × QueryResult),
      ExecuteMerged (nones.map (fun h => (h, (none : QueryResult))) ++ rest) =
        ExecuteMerged rest := by
  induction nones with
  | nil => intro rest; rfl
  | cons h t ih =>
    intro rest
    simp only [List.map_cons, List.cons_append, ExecuteMerged,
      List.foldlM_cons]
    rw [show mergeStep none h (none : QueryResult) = .ok none from rfl,
      except_bind_ok]
    exact ih rest

/-- C2 (amended): when the empty (DML, `None`) per-shard results all
precede the non-empty row tables in processing order, `ExecuteMerged`
returns the merge of the non-empty tables with an extra `host` column
filled with each originating hostname, and every empty result contributes
nothing. (The unrestricted order-independence of the original claim fails:
a `None` result processed after a non-empty table crashes.) -/
theorem executeMerged_empty_prefix_merged (F : List (List Char))
    (nones : List (List Char)) (tables : List (List Char × VirtualTable))
    (hhost : "host".data ∉ F)
    (htab : ∀ p ∈ tables, p.2.kind = .rows ∧ p.2.fields = F ∧
      p.2.rows ≠ [] ∧ ∀ r ∈ p.2.rows, ∃ xs, r = Py.tuple xs)
    (hne : tables ≠ []) :
    ExecuteMerged (nones.map (fun h => (h, (none : QueryResult))) ++
        tables.map (fun p => (p.1, (some p.2 : QueryResult)))) =
      .ok (some { kind := TableKind.rows,
                  fields := F ++ ["host".data],
                  rows := (tables.map (fun p =>
                    p.2.rows.map (appendCell (Py.str p.1)))).flatten }) := by
  rw [executeMerged_skips_leading_nones]
  cases tables with
  | nil => exact absurd rfl hne
  | cons p rest =>
    obtain ⟨hkind, hfields, hrows, htuples⟩ := htab p (List.mem_cons_self _ _)
    simp only [ExecuteMerged, List.map_cons, List.foldlM_cons,
      mergeStep_table_first p.1 p.2 F hkind hfields hrows hhost htuples,
      except_bind_ok]
    rw [executeMerged_tables_fold F hhost rest
      { kind := TableKind.rows,
        fields := F ++ ["host".data],
        rows := p.2.rows.map (appendCell (Py.str p.1)) }
      rfl
      (by
        intro hbad
        rw [List.map_eq_nil_iff] at hbad
        exact hrows hbad)
      (fun x hx => htab x (List.mem_cons_of_mem _ hx))]
    simp

/-- Witness for C2 (amended): one DML (`None`) result from `h2` processed
before one single-row table from `h1`. -/
theorem executeMerged_empty_prefix_witness :
    ExecuteMerged [("h2".data, (none : QueryResult)),
        ("h1".data,
          (some ⟨.rows, ["x".data], [.tuple [.int 1]]⟩ : QueryResult))] =
      .ok (some { kind := TableKind.rows,
                  fields := ["x".data, "host".data],
                  rows := [.tuple [.int 1, .str "h1".data]] }) := by
  have h := executeMerged_empty_prefix_merged ["x".data] ["h2".data]
    [("h1".data, ⟨.rows, ["x".data], [.tuple [.int 1]]⟩)]
    (by decide)
    (by
      intro p hp
      rw [List.mem_singleton] at hp
      subst hp
      exact ⟨rfl, rfl, by simp, by
        intro r hr
        rw [List.mem_singleton] at hr
        subst hr
        exact ⟨[Py.int 1], rfl⟩⟩)
    (List.cons_ne_nil _ _)
  exact h

/-- C1: the claim fails on the code. `Cache.__call__` tests
`time.time() - self._last_lookup_time > 60` but never updates
`_last_lookup_time` after a lookup (it stays at its initial 0), so a second
call one second after a lookup at time 1000 re-issues the underlying lookup
instead of returning the memoized value. -/
theorem cache_reissues_lookup_within_ttl :
    (cacheCall 1000 (0 : Nat) cacheInit).2.2 = true ∧
    (cacheCall 1000 (0 : Nat) cacheInit).2.1.lastLookupTime = 0 ∧
    (cacheCall 1001 (0 : Nat) (cacheCall 1000 (0 : Nat) cacheInit).2.1).2.2
      = true :=
  ⟨rfl, rfl, rfl⟩

/-- C5: the claim fails on the code. The unknown-query-error handler
(db.py 698) builds `QueryErrors(('Code', 'Message'), ((4, str(e))))`: the
row argument is the single tuple `(4, str(e))`, so the constructor iterates
`4` and the message as rows and raises `TypeError` (`len()` of an int)
instead of returning a table with the single row `(4, message)`. The
code-3 connection-failure table (db.py 661) and the code-2 canceled table
(db.py 558-559) are built correctly. -/
theorem unknown_query_error_construction_crashes :
    unknownQueryError "boom".data = .error .typeErrorNoLen ∧
    unknownConnectError "conn fail".data =
      .ok ⟨.errors, ["Code".data, "Message".data],
           [.tuple [.int 3, .str "conn fail".data]]⟩ ∧
    ERR_QUERY_CANCELED =
      .ok ⟨.errors, ["Code".data, "Message".data],
           [.tuple [.int 2, .str "Query canceled".data]]⟩ :=
  ⟨rfl, rfl, rfl⟩

/-- C6 counterexample: for the range descriptor `h{3..5}` the chosen
expander is the range expander and its shard map has keys 3, 4, 5 — three
shards whose key set is not `{0, 1, 2}`, refuting "dense integer keys
starting at 0". -/
theorem range_expander_keys_not_zero_based :
    getExpanderKind "h\x7b3..5\x7d".data = .range ∧
    expanderLookup "h\x7b3..5\x7d".data 0 =
      some [(3, "h3".data), (4, "h4".data), (5, "h5".data)] ∧
    ((expanderLookup "h\x7b3..5\x7d".data 0).getD []).map Prod.fst ≠
      List.range 3 := by
  refine ⟨rfl, by decide, by decide⟩

/-- C2 counterexample: with one non-empty row table and one empty (DML,
`None`) per-shard result, `ExecuteMerged` crashes with an `AttributeError`
(`None.AddField`) when the `None` result is processed after the non-empty
table, yet succeeds in the opposite order — the empty result does not
"contribute nothing ... regardless of the order". -/
theorem executeMerged_dml_after_rows_crashes :
    ExecuteMerged [("h1".data, some ⟨.rows, ["x".data], [.tuple [.int 1]]⟩),
                   ("h2".data, (none : QueryResult))] =
      .error .attributeError ∧
    ExecuteMerged [("h2".data, (none : QueryResult)),
                   ("h1".data, some ⟨.rows, ["x".data], [.tuple [.int 1]]⟩)] =
      .ok (some ⟨.rows, ["x".data, "host".data],
                 [.tuple [.int 1, .str "h1".data]]⟩) :=
  ⟨rfl, rfl⟩

end DB
